import Mathlib

/-!
# A shallow embedding of the `math-parse` expression evaluator

This file models the Rust library `math-parse` (tokenizer, infix parser,
RPN parser, tree/RPN conversion, display, and the numeric evaluator) and
proves properties of the model.

Modelling conventions:
* Rust `i64` is modelled as `Int` together with an explicit two's-complement
  wrap (`wrap64`) wherever the source performs native `i64` arithmetic that
  wraps in release builds; the division/remainder overflow case
  (`i64::MIN / -1`, `i64::MIN % -1`), which panics in every build mode, is
  modelled as a panic.
* Rust `f64` is modelled as `Rat`.  This is exact for every floating-point
  value and operation appearing in the statements proved below (small
  integers and halves); IEEE special values and rounding are outside the
  model, and the float grammar accepted by `parseFloatChars` covers the
  finite decimal forms.
* Fallible Rust code returns an `Outcome`: `ok`/`err` mirror
  `Result<_, MathParseErrors>`, `panic` mirrors a Rust panic, and `diverge`
  marks non-termination (it is produced only when a loop runs out of fuel).
* Strings are modelled as `List Char`; the byte-oriented operations of the
  source (`s.len()`, `&s[0..2]`) are modelled through `Char.utf8Size`.
-/

/-- The error enumeration of `lib.rs`.  `MathParseInternalBug` carries a
message string in the source; the message is irrelevant to every statement
below and is omitted. -/
inductive MathParseErrors where
  | UnclosedParenthesis
  | UnopenedParenthesis
  | EmptyLine
  | InvalidNumber (s : List Char)
  | MisplacedOperator (c : Char)
  | TrailingOperator
  | IntConversion (f : Rat)
  | BinaryOpOnFloat (f : Rat) (c : Char)
  | ReturnFloatExpectedInt (f : Rat)
  | BadOperatorHint (c : Char) (hint : List Char)
  | UnexpectedZero
  | UnexpectedNegative
  | InvalidRPNOperator (c : Char)
  | UnbalancedStack
  | MathParseInternalBug
  deriving DecidableEq

/-- Outcome of running a piece of Rust code: a returned value, a returned
`MathParseErrors` value, a panic, or non-termination (produced only on fuel
exhaustion of a loop). -/
inductive Outcome (α : Type) where
  | ok (a : α)
  | err (e : MathParseErrors)
  | panic
  | diverge
  deriving DecidableEq

def Outcome.bind {α β : Type} (x : Outcome α) (f : α → Outcome β) : Outcome β :=
  match x with
  | .ok a => f a
  | .err e => .err e
  | .panic => .panic
  | .diverge => .diverge

instance : Monad Outcome where
  pure := Outcome.ok
  bind := Outcome.bind

/- ------------------------- i64 and f64 modelling ------------------------- -/

/-- Two's-complement wrap of an unbounded integer into the `i64` range,
modelling Rust release-mode wrapping arithmetic. -/
def wrap64 (z : Int) : Int := (z + 2 ^ 63) % 2 ^ 64 - 2 ^ 63

/-- The value `i64::MIN`. -/
def I64MIN : Int := -(2 ^ 63)

/-- `INTEGRAL_LIMIT` from `number_conversion.rs`: `9007199254740992.0 = 2^53`. -/
def INTEGRAL_LIMIT : Rat := 9007199254740992

/-- Rust `f64::round`: round half away from zero. -/
def rustRound (q : Rat) : Int :=
  if 0 ≤ q then Rat.floor (q + 1/2) else -Rat.floor (-q + 1/2)

/-- `f_to_i` from `number_conversion.rs`.  The source first tests
`f.is_nan()`; `Rat` has no NaN so that branch is dropped.  The rounded value
is bounds-checked against `INTEGRAL_LIMIT` and the error carries the rounded
float, as in the source. -/
def fToI (f : Rat) : Outcome Int :=
  let r : Int := rustRound f
  if (r : Rat) > INTEGRAL_LIMIT then .err (.IntConversion (r : Rat))
  else if (r : Rat) < -1 * INTEGRAL_LIMIT then .err (.IntConversion (r : Rat))
  else .ok r

/-- `i_to_f` from `number_conversion.rs` (`i as f64`; exact in the `Rat`
model). -/
def iToF (i : Int) : Rat := (i : Rat)

/-- `f_to_i_strict` from `number_conversion.rs`: loose conversion followed by
a check that converting back reproduces the input. -/
def fToIStrict (f : Rat) : Outcome Int :=
  (fToI f).bind fun loose =>
    if iToF loose = f then .ok loose else .err (.ReturnFloatExpectedInt f)

/- ------------------------------- Numbers --------------------------------- -/

/-- The `Number` enum of `solve.rs`. -/
inductive Number where
  | Int (i : Int)
  | Float (q : Rat)
  deriving DecidableEq

/-- `Number::is_zero`. -/
def Number.is_zero : Number → Bool
  | .Int i => i == 0
  | .Float f => f == 0

/-- `Number::err_on_zero`. -/
def Number.err_on_zero (n : Number) : Outcome Unit :=
  if n.is_zero then .err .UnexpectedZero else .ok ()

/-- `Number::is_negative`. -/
def Number.is_negative : Number → Bool
  | .Int i => i < 0
  | .Float f => f < 0

/-- `Number::err_on_negative`. -/
def Number.err_on_negative (n : Number) : Outcome Unit :=
  if n.is_negative then .err .UnexpectedNegative else .ok ()

/-- `Number::err_on_float`. -/
def Number.err_on_float (n : Number) (op : Char) : Outcome Unit :=
  match n with
  | .Float f => .err (.BinaryOpOnFloat f op)
  | .Int _ => .ok ()

/-- `impl Add for Number` (Int/Int in wrapping `i64` arithmetic). -/
def Number.add : Number → Number → Number
  | .Int s, .Int o => .Int (wrap64 (s + o))
  | .Float s, .Int o => .Float (s + iToF o)
  | .Int s, .Float o => .Float (iToF s + o)
  | .Float s, .Float o => .Float (s + o)

/-- `impl Sub for Number`. -/
def Number.sub : Number → Number → Number
  | .Int s, .Int o => .Int (wrap64 (s - o))
  | .Float s, .Int o => .Float (s - iToF o)
  | .Int s, .Float o => .Float (iToF s - o)
  | .Float s, .Float o => .Float (s - o)

/-- `impl Mul for Number`. -/
def Number.mul : Number → Number → Number
  | .Int s, .Int o => .Int (wrap64 (s * o))
  | .Float s, .Int o => .Float (s * iToF o)
  | .Int s, .Float o => .Float (iToF s * o)
  | .Float s, .Float o => .Float (s * o)

/-- `impl Div for Number`: zero check first, then every operand pair is
promoted to float division. -/
def Number.div (self other : Number) : Outcome Number :=
  (other.err_on_zero).bind fun _ =>
    match self, other with
    | .Int s, .Int o => .ok (.Float (iToF s / iToF o))
    | .Float s, .Int o => .ok (.Float (s / iToF o))
    | .Int s, .Float o => .ok (.Float (iToF s / o))
    | .Float s, .Float o => .ok (.Float (s / o))

/-- Rust `%` on `f64`: truncated remainder, `a - b * trunc(a / b)`. -/
def fRem (a b : Rat) : Rat :=
  a - b * ((if a / b < 0 then Rat.ceil (a / b) else Rat.floor (a / b) : Int) : Rat)

/-- `impl Rem for Number`: zero check first; the Int/Int case is Rust `%`
(truncated remainder), which panics on `i64::MIN % -1` in every build mode. -/
def Number.rem (self other : Number) : Outcome Number :=
  (other.err_on_zero).bind fun _ =>
    match self, other with
    | .Int s, .Int o =>
        if s = I64MIN ∧ o = -1 then .panic else .ok (.Int (Int.tmod s o))
    | .Float s, .Int o => .ok (.Float (fRem s (iToF o)))
    | .Int s, .Float o => .ok (.Float (fRem (iToF s) o))
    | .Float s, .Float o => .ok (.Float (fRem s o))

/-- `impl Not for Number`. -/
def Number.bnot : Number → Outcome Number
  | .Int s => .ok (.Int (wrap64 (-s - 1)))
  | .Float s => .err (.BinaryOpOnFloat s '!')

/-- `impl BitXor for Number`. -/
def Number.bitxor (self other : Number) : Outcome Number :=
  (self.err_on_float '^').bind fun _ =>
  (other.err_on_float '^').bind fun _ =>
    match self, other with
    | .Int s, .Int o => .ok (.Int (Int.xor s o))
    | _, _ => .err .MathParseInternalBug

/-- `impl BitAnd for Number`. -/
def Number.bitand (self other : Number) : Outcome Number :=
  (self.err_on_float '&').bind fun _ =>
  (other.err_on_float '&').bind fun _ =>
    match self, other with
    | .Int s, .Int o => .ok (.Int (Int.land s o))
    | _, _ => .err .MathParseInternalBug

/-- `impl BitOr for Number`. -/
def Number.bitor (self other : Number) : Outcome Number :=
  (self.err_on_float '|').bind fun _ =>
  (other.err_on_float '|').bind fun _ =>
    match self, other with
    | .Int s, .Int o => .ok (.Int (Int.lor s o))
    | _, _ => .err .MathParseInternalBug

/-- `impl Shl for Number`: float checks, then the negativity check on the
shift amount, then Rust release-mode `s << o` (shift amount masked mod 64,
result wrapped). -/
def Number.shl (self other : Number) : Outcome Number :=
  (self.err_on_float '≪').bind fun _ =>
  (other.err_on_float '≪').bind fun _ =>
  (other.err_on_negative).bind fun _ =>
    match self, other with
    | .Int s, .Int o => .ok (.Int (wrap64 (s * 2 ^ (o.toNat % 64))))
    | _, _ => .err .MathParseInternalBug

/-- `impl Shr for Number`: as `shl`, with arithmetic right shift (floor
division by a power of two). -/
def Number.shr (self other : Number) : Outcome Number :=
  (self.err_on_float '≫').bind fun _ =>
  (other.err_on_float '≫').bind fun _ =>
  (other.err_on_negative).bind fun _ =>
    match self, other with
    | .Int s, .Int o => .ok (.Int (Int.fdiv s (2 ^ (o.toNat % 64))))
    | _, _ => .err .MathParseInternalBug

/-- `Number::integer_div`: `(self - self % other) / other`, both sides
narrowed to `i64` with `f_to_i`.  The final native `i64` division panics on
division by zero (reachable when `f_to_i` rounds a small float divisor to 0)
and on `i64::MIN / -1`. -/
def Number.integer_div (self other : Number) : Outcome Number :=
  (other.err_on_zero).bind fun _ =>
  (self.rem other).bind fun m =>
  (match self.sub m with
   | .Int v => Outcome.ok v
   | .Float f => fToI f).bind fun s =>
  (match other with
   | .Int v => Outcome.ok v
   | .Float f => fToI f).bind fun o =>
  if o = 0 ∨ (s = I64MIN ∧ o = -1) then .panic
  else .ok (.Int (Int.tdiv s o))

/- ------------------------------ Tokenizer -------------------------------- -/

/-- `MATH_CHARS` from `parse.rs` / `tokenize.rs`. -/
def MATH_CHARS : List Char :=
  ['+', '-', '−', '*', '×', '·', '/', '∕', '⁄', '÷', '(', ')', '%', '⟌',
   '!', '~', '^', '&', '|', '≪', '<', '>', '≫']

/-- `is_in(c, &MATH_CHARS)`. -/
def isMathChar (c : Char) : Bool := MATH_CHARS.contains c

/-- The `MathValue` enum of `parse.rs` (the `tokenize.rs` copy is
identical). -/
inductive MathValue where
  | Name (s : List Char)
  | Operator (c : Char)
  | Operation (c : Char) (off1 off2 : Int)
  | UnaryOperation (c : Char) (off : Int)
  | ParenOpen (off : Int)
  | ParenClose (size : Nat)
  | TrailingError
  deriving DecidableEq

/-- `token_base`: maximal runs of non-math characters become `Name` tokens,
math characters become `Operator` tokens, and one `TrailingError` sentinel is
appended.  The in-progress name run of the source (a byte span) is modelled
by the accumulator `cur`. -/
def tokenBase : List Char → List Char → List MathValue
  | [], cur => (if cur = [] then [] else [.Name cur]) ++ [.TrailingError]
  | c :: rest, cur =>
    if isMathChar c then
      (if cur = [] then [] else [.Name cur]) ++ (.Operator c :: tokenBase rest [])
    else tokenBase rest (cur ++ [c])

/-- The two-character operator merges of `token_complex`. -/
def mergeOps : Char → Char → Option Char
  | '/', '/' => some '⟌'
  | '<', '<' => some '≪'
  | '>', '>' => some '≫'
  | _, _ => none

/-- `token_complex` from `parse.rs` / `tokenize.rs`: merge `//`, `<<`, `>>`;
the second token of a merged pair is overwritten with the `ParenOpen(1)`
placeholder and the scan resumes after the pair. -/
def tokenComplexGo : MathValue → List MathValue → List MathValue
  | x, [] => [x]
  | x, y :: rest =>
    match x, y with
    | .Operator a, .Operator b =>
      (match mergeOps a b with
       | some m =>
         (match rest with
          | [] => [.Operator m, .ParenOpen 1]
          | z :: rest2 => .Operator m :: .ParenOpen 1 :: tokenComplexGo z rest2)
       | none => .Operator a :: tokenComplexGo y rest)
    | _, _ => x :: tokenComplexGo y rest

/-- `token_complex` entry point. -/
def tokenComplex : List MathValue → List MathValue
  | [] => []
  | x :: rest => tokenComplexGo x rest

/-- `math_token` from `parse.rs` (also `tokenize.rs`; the `Result` wrapper of
the `parse.rs` version never carries an error). -/
def mathToken (s : List Char) : List MathValue := tokenComplex (tokenBase s [])

/- --------------------------- Operator enums ------------------------------ -/

/-- The `UnaryOp` enum of `lib.rs`. -/
inductive UnaryOp where
  | Not
  | Minus
  | Plus
  deriving DecidableEq

/-- The `BinaryOp` enum of `lib.rs`. -/
inductive BinaryOp where
  | Multiplication
  | Division
  | IntegerDivision
  | Reminder
  | Addition
  | Subtraction
  | ShiftLeft
  | ShiftRight
  | BitwiseAnd
  | BitwiseOr
  | BitwiseXor
  deriving DecidableEq

/-- `BinaryOp::from_char` from `lib.rs`. -/
def BinaryOp.from_char (c : Char) : Outcome BinaryOp :=
  if c = '*' ∨ c = '×' ∨ c = '·' then .ok .Multiplication
  else if c = '/' ∨ c = '∕' ∨ c = '⁄' ∨ c = '÷' then .ok .Division
  else if c = '+' then .ok .Addition
  else if c = '-' ∨ c = '−' then .ok .Subtraction
  else if c = '%' then .ok .Reminder
  else if c = '⟌' then .ok .IntegerDivision
  else if c = '|' then .ok .BitwiseOr
  else if c = '&' then .ok .BitwiseAnd
  else if c = '^' then .ok .BitwiseXor
  else if c = '≪' then .ok .ShiftLeft
  else if c = '≫' then .ok .ShiftRight
  else if c = '<' then .err (.BadOperatorHint '<' ['<', '<'])
  else if c = '>' then .err (.BadOperatorHint '>' ['>', '>'])
  else .err .MathParseInternalBug

/-- The `RPN` instruction enum of `lib.rs` (`Name` holds an owned string). -/
inductive RPN where
  | Name (s : List Char)
  | Unary (op : UnaryOp)
  | Binary (op : BinaryOp)
  deriving DecidableEq

/- ----------------------------- Infix parser ------------------------------ -/

/-- `unary_parse` from `parse.rs`: one pass over the line with the
"an operator was just seen" flag (initially true); `+`, `-`/`−`, `!`/`~` are
rewritten to `UnaryOperation(_, 1)` when the flag is set; any other operator
seen while the flag is set is `MisplacedOperator`; `(` sets the flag, `)`,
names and `ParenOpen` placeholders clear it. -/
def unaryParse : List MathValue → Bool → Outcome (List MathValue)
  | [], _ => .ok []
  | .Operator c :: rest, prev =>
    if c = '+' then
      (unaryParse rest true).bind fun r =>
        .ok ((if prev then .UnaryOperation '+' 1 else .Operator '+') :: r)
    else if c = '-' ∨ c = '−' then
      (unaryParse rest true).bind fun r =>
        .ok ((if prev then .UnaryOperation '-' 1 else .Operator c) :: r)
    else if c = '!' ∨ c = '~' then
      (unaryParse rest true).bind fun r =>
        .ok ((if prev then .UnaryOperation '!' 1 else .Operator c) :: r)
    else if c = '(' then
      (unaryParse rest true).bind fun r => .ok (.Operator '(' :: r)
    else if c = ')' then
      (unaryParse rest false).bind fun r => .ok (.Operator ')' :: r)
    else if prev then .err (.MisplacedOperator c)
    else (unaryParse rest true).bind fun r => .ok (.Operator c :: r)
  | .Name s :: rest, _ =>
    (unaryParse rest false).bind fun r => .ok (.Name s :: r)
  | .ParenOpen off :: rest, _ =>
    (unaryParse rest false).bind fun r => .ok (.ParenOpen off :: r)
  | .TrailingError :: rest, prev =>
    (unaryParse rest prev).bind fun r => .ok (.TrailingError :: r)
  | _ :: _, _ => .err .MathParseInternalBug

/-- Result of one `parse_op` call: stop the tier cascade (line of length 1),
try the next tier (no operator found), or an operator was found at an
index. -/
inductive POut where
  | halt
  | next
  | found (i : Nat)
  deriving DecidableEq

/-- The right-to-left scanning loop of `parse_op`: starting at `hi - 2`,
heading down to `lo + 1`; `ParenClose(size)` jumps over a folded group.  The
`gas` parameter models the loop counter: a `ParenClose(0)` (never produced by
a successful parse) would loop forever in the source and yields `diverge`
here; jumping below zero underflows `usize` and is a panic. -/
def parseOpScan (line : List MathValue) (ops : List Char) (lo : Nat) :
    Nat → Nat → Outcome (Option Nat)
  | 0, _ => .diverge
  | gas + 1, idx =>
    if lo + 1 ≤ idx then
      match line.get? idx with
      | some (.Operator c) =>
        if ops.contains c then .ok (some idx)
        else parseOpScan line ops lo gas (idx - 1)
      | some (.ParenClose size) =>
        if idx < size then .panic else parseOpScan line ops lo gas (idx - size)
      | some _ => parseOpScan line ops lo gas (idx - 1)
      | none => .panic
    else .ok none

/-- `parse_op` from `parse.rs` on the half-open range `[lo, hi)`. -/
def parseOp (line : List MathValue) (ops : List Char) (lo hi : Nat) :
    Outcome POut :=
  match hi - lo with
  | 0 => .err .EmptyLine
  | 1 =>
    (match line.get? lo with
     | some .TrailingError => .err .EmptyLine
     | some _ => .ok .halt
     | none => .panic)
  | _ =>
    (parseOpScan line ops lo (hi - lo) (hi - 2)).bind fun r =>
      match r with
      | some i => .ok (.found i)
      | none => .ok .next

/-- The task stack entries of `all_but_paren_parse`. -/
inductive ParseSteps where
  | BlockSolving (lo hi : Nat)
  | OperatorReading (lo hi idx : Nat)
  deriving DecidableEq

/-- `make_tasks_from_op`: push the operator continuation, then the left
block, then the right block (so the right block is processed first). -/
def makeTasksFromOp (lo hi idx : Nat) : List ParseSteps :=
  [.BlockSolving (idx + 1) hi, .BlockSolving lo idx, .OperatorReading lo hi idx]

/-- The precedence tiers of `solve_block`, lowest first. -/
def tierList : List (List Char) :=
  [['|'], ['^'], ['&'], ['≪', '≫', '<', '>'], ['+', '-', '−'],
   ['/', '∕', '⁄', '÷', '*', '×', '·', '%', '⟌']]

/-- `solve_block`: run `parse_op` tier by tier; the first five tiers stop the
cascade when `parse_op` reports true, and the result of the last tier is
ignored. -/
def solveBlockGo (line : List MathValue) (lo hi : Nat) :
    List (List Char) → Outcome (List ParseSteps)
  | [] => .ok []
  | [tier] =>
    (parseOp line tier lo hi).bind fun r =>
      match r with
      | .found i => .ok (makeTasksFromOp lo hi i)
      | _ => .ok []
  | tier :: rest =>
    (parseOp line tier lo hi).bind fun r =>
      match r with
      | .halt => .ok []
      | .found i => .ok (makeTasksFromOp lo hi i)
      | .next => solveBlockGo line lo hi rest

/-- `make_op` from `parse.rs`: turn `line[idx]` into
`Operation(c, off, off+1)` stored at `line[lo]`, moving the previous head to
`idx` with its relative offsets rebased. -/
def makeOp (line : List MathValue) (lo idx : Nat) : Outcome (List MathValue) :=
  match line.get? idx with
  | some (.Operator c) =>
    if idx < lo then .panic
    else
      let off : Int := (idx : Int) - (lo : Int)
      match line.get? lo with
      | some head =>
        let adjusted : MathValue :=
          match head with
          | .ParenOpen x => .ParenOpen (x - off)
          | .Operation c2 o1 o2 => .Operation c2 (o1 - off) (o2 - off)
          | .UnaryOperation c2 o => .UnaryOperation c2 (o - off)
          | x => x
        .ok ((line.set lo (.Operation c off (off + 1))).set idx adjusted)
      | none => .panic
  | some _ => .err .MathParseInternalBug
  | none => .panic

/-- `solve_tasks`: process the task stack until empty.  The source loop
always terminates (the weight `3*(hi-lo)` of a block strictly exceeds the
total weight `3*((hi-lo)-1) + 1` of the tasks it spawns), so the fuel chosen
in `allButParen` below is always sufficient. -/
def solveTasks (line : List MathValue) :
    Nat → List ParseSteps → Outcome (List MathValue)
  | _, [] => .ok line
  | 0, _ => .diverge
  | gas + 1, t :: rest =>
    match t with
    | .BlockSolving lo hi =>
      (solveBlockGo line lo hi tierList).bind fun tasks =>
        solveTasks line gas (tasks ++ rest)
    | .OperatorReading lo _hi idx =>
      (makeOp line lo idx).bind fun line2 => solveTasks line2 gas rest

/-- `all_but_paren_parse` from `parse.rs`. -/
def allButParen (line : List MathValue) : Outcome (List MathValue) :=
  solveTasks line (3 * line.length + 2) [.BlockSolving 0 line.length]

/-- The scan of `single_paren_parse`: locate the first `)` together with the
most recent `(` before it. -/
def findParen : List MathValue → Nat → Option Nat → Outcome (Option (Nat × Nat))
  | [], _, some _ => .err .UnclosedParenthesis
  | [], _, none => .ok none
  | .Operator '(' :: rest, i, _ => findParen rest (i + 1) (some i)
  | .Operator ')' :: _, i, some j => .ok (some (j, i))
  | .Operator ')' :: _, _, none => .err .UnopenedParenthesis
  | _ :: rest, i, opn => findParen rest (i + 1) opn

/-- The slice surgery of `single_paren_parse`: parse the interior with
`all_but_paren_parse`, then overwrite the opening parenthesis with
`ParenOpen(1)` and the closing one with `ParenClose(interior length)`. -/
def parenSurgery (line : List MathValue) (j i : Nat) : Outcome (List MathValue) :=
  let size := i - j - 1
  let inner := (line.drop (j + 1)).take size
  (allButParen inner).bind fun inner2 =>
    .ok ((line.take j) ++ [.ParenOpen 1] ++ inner2 ++
         [.ParenClose size] ++ line.drop (i + 1))

/-- The `while single_paren_parse(line)? {}` loop of `paren_parse`.  Each
iteration replaces one `Operator('(')`, so `line.length + 1` rounds of gas
always suffice. -/
def parenParseGo : Nat → List MathValue → Outcome (List MathValue)
  | 0, _ => .diverge
  | gas + 1, line =>
    (findParen line 0 none).bind fun r =>
      match r with
      | none => .ok line
      | some (j, i) => (parenSurgery line j i).bind fun line2 => parenParseGo gas line2

/-- `paren_parse` from `parse.rs`. -/
def parenParse (line : List MathValue) : Outcome (List MathValue) :=
  parenParseGo (line.length + 1) line

/-- `math_parse_tokens` from `parse.rs`: unary pass, parenthesis pass,
precedence pass. -/
def mathParseTokens (line : List MathValue) : Outcome (List MathValue) :=
  (unaryParse line true).bind fun l1 =>
    (parenParse l1).bind fun l2 => allButParen l2

/-- `math_parse` from `parse.rs`: tokenize, then parse. -/
def mathParse (s : List Char) : Outcome (List MathValue) :=
  mathParseTokens (mathToken s)

/- ------------------------- Tree to RPN (rpn.rs) -------------------------- -/

/-- The work-stack entries of `rpn.rs`. -/
inductive RPNSteps where
  | Solve (i : Nat)
  | OperatorStep (i : Nat)
  deriving DecidableEq

/-- `add_index_offset` from `rpn.rs`: a negative target is an internal-bug
error. -/
def addIndexOffset (i : Nat) (off : Int) : Outcome Nat :=
  if (i : Int) + off < 0 then .err .MathParseInternalBug
  else .ok ((i : Int) + off).toNat

/-- `read_operator` from `rpn.rs` (the binary table coincides with
`BinaryOp::from_char`). -/
def readOperator (line : List MathValue) (i : Nat) : Outcome RPN :=
  match line.get? i with
  | some (.Operation c _ _) => (BinaryOp.from_char c).bind fun op => .ok (.Binary op)
  | some (.UnaryOperation c _) =>
    if c = '!' then .ok (.Unary .Not)
    else if c = '-' then .ok (.Unary .Minus)
    else if c = '+' then .ok (.Unary .Plus)
    else .err .MathParseInternalBug
  | some _ => .err .MathParseInternalBug
  | none => .panic

/-- The `while rpn_steps.len() != 0` loop of `parse_rpn` in `rpn.rs`, with a
gas counter: a cyclic offset chain (for instance a `ParenOpen(0)` node
pointing at itself) loops forever in the source and exhausts any amount of
gas here. -/
def rpnMachine : Nat → List MathValue → List RPNSteps → List RPN → Outcome (List RPN)
  | _, _, [], acc => .ok acc
  | 0, _, _ :: _, _ => .diverge
  | gas + 1, line, step :: rest, acc =>
    match step with
    | .Solve i =>
      match line.get? i with
      | some (.Name s) => rpnMachine gas line rest (acc ++ [.Name s])
      | some (.Operation _ o1 o2) =>
        (addIndexOffset i o1).bind fun t1 =>
        (addIndexOffset i o2).bind fun t2 =>
          rpnMachine gas line (.Solve t1 :: .Solve t2 :: .OperatorStep i :: rest) acc
      | some (.UnaryOperation _ o) =>
        (addIndexOffset i o).bind fun t =>
          rpnMachine gas line (.Solve t :: .OperatorStep i :: rest) acc
      | some (.ParenOpen o) =>
        (addIndexOffset i o).bind fun t =>
          rpnMachine gas line (.Solve t :: rest) acc
      | some .TrailingError => .err .TrailingOperator
      | some _ => .err .MathParseInternalBug
      | none => .panic
    | .OperatorStep i =>
      (readOperator line i).bind fun op => rpnMachine gas line rest (acc ++ [op])

/-- `parse_rpn` from `rpn.rs`: run the work-stack machine from `Solve(0)`. -/
def rpnConvert (line : List MathValue) : Outcome (List RPN) :=
  rpnMachine (4 * line.length + 4) line [.Solve 0] []

/-- The `MathParse` struct of `lib.rs`: the parsed form is kept as RPN. -/
structure MathParse where
  internal : List RPN
  deriving DecidableEq

/-- `MathParse::parse` from `lib.rs`: infix parse then conversion to RPN. -/
def MathParse.parse (s : List Char) : Outcome MathParse :=
  (mathParse s).bind fun tree => (rpnConvert tree).bind fun l => .ok ⟨l⟩

/- -------------------- Reading numbers from strings ----------------------- -/

/-- UTF-8 byte length of a string, modelling Rust `str::len`. -/
def utf8Len (s : List Char) : Nat := (s.map Char.utf8Size).sum

/-- Digit value of a character in the given radix (10 or 16), as accepted by
`i64::from_str_radix`. -/
def digitVal (radix : Nat) (c : Char) : Option Nat :=
  if '0' ≤ c ∧ c ≤ '9' then
    let v := c.toNat - '0'.toNat
    if v < radix then some v else none
  else if radix = 16 ∧ 'a' ≤ c ∧ c ≤ 'f' then some (c.toNat - 'a'.toNat + 10)
  else if radix = 16 ∧ 'A' ≤ c ∧ c ≤ 'F' then some (c.toNat - 'A'.toNat + 10)
  else none

/-- Parse a non-empty digit run in the given radix. -/
def parseDigitsGo (radix : Nat) : List Char → Nat → Option Nat
  | [], acc => some acc
  | c :: rest, acc =>
    match digitVal radix c with
    | some v => parseDigitsGo radix rest (acc * radix + v)
    | none => none

/-- Parse a digit run; empty input is rejected. -/
def parseDigits (radix : Nat) (s : List Char) : Option Nat :=
  match s with
  | [] => none
  | _ => parseDigitsGo radix s 0

/-- `i64::from_str_radix`: optional sign, non-empty digit run, `i64` range
check (an out-of-range value is an error that the caller turns into a float
parse attempt). -/
def fromStrRadix (s : List Char) (radix : Nat) : Option Int :=
  let signed : Int × List Char :=
    match s with
    | '+' :: rest => (1, rest)
    | '-' :: rest => (-1, rest)
    | _ => (1, s)
  match parseDigits radix signed.2 with
  | some n =>
    let v : Int := signed.1 * n
    if -(2 ^ 63) ≤ v ∧ v ≤ 2 ^ 63 - 1 then some v else none
  | none => none

/-- Split a float literal at the first `e`/`E`. -/
def splitExp : List Char → List Char × Option (List Char)
  | [] => ([], none)
  | c :: rest =>
    if c = 'e' ∨ c = 'E' then ([], some rest)
    else
      let p := splitExp rest
      (c :: p.1, p.2)

/-- Decimal digit run to a natural number (empty run is 0, for the `"5."` and
`".5"` forms). -/
def digitsToNat (s : List Char) : Nat :=
  s.foldl (fun acc c => acc * 10 + (c.toNat - '0'.toNat)) 0

/-- Mantissa of a float literal: `digits`, `digits.`, `digits.digits` or
`.digits`. -/
def parseMantissa (s : List Char) : Option Rat :=
  let p := s.span Char.isDigit
  match p.2 with
  | [] => if p.1 = [] then none else some (digitsToNat p.1 : Rat)
  | '.' :: rest2 =>
    let q := rest2.span Char.isDigit
    if q.2 ≠ [] then none
    else if p.1 = [] ∧ q.1 = [] then none
    else some ((digitsToNat p.1 : Rat) + (digitsToNat q.1 : Rat) / 10 ^ q.1.length)
  | _ => none

/-- Exponent part of a float literal: optional sign and a non-empty digit
run. -/
def parseExpPart (s : List Char) : Option Int :=
  let signed : Int × List Char :=
    match s with
    | '+' :: rest => (1, rest)
    | '-' :: rest => (-1, rest)
    | _ => (1, s)
  if signed.2 = [] ∨ ¬ signed.2.all Char.isDigit then none
  else some (signed.1 * digitsToNat signed.2)

/-- `str::parse::<f64>` restricted to finite decimal forms, evaluated exactly
in `Rat` (the IEEE special spellings `inf`/`infinity`/`nan` are outside the
rational model and rejected; no statement below depends on them). -/
def parseFloatChars (s : List Char) : Option Rat :=
  let signed : Rat × List Char :=
    match s with
    | '+' :: rest => (1, rest)
    | '-' :: rest => (-1, rest)
    | _ => (1, s)
  let p := splitExp signed.2
  match parseMantissa p.1 with
  | none => none
  | some m =>
    match p.2 with
    | none => some (signed.1 * m)
    | some e =>
      match parseExpPart e with
      | some ex => some (signed.1 * m * (10 : Rat) ^ ex)
      | none => none

/-- `number_from_string` from `solve.rs`.  The source checks
`s.len() >= 3 && &s[0..2] == "0x"` on the raw bytes: when byte index 2 is not
a character boundary (the first character is 3 or 4 bytes wide, or a 1-byte
character is followed by a multi-byte one), the slice `&s[0..2]` panics. -/
def numberFromString (s : List Char) : Outcome Number :=
  let fallback : Outcome Number :=
    match parseFloatChars s with
    | some q => .ok (.Float q)
    | none => .err (.InvalidNumber s)
  let viaRadix : Option Int → Outcome Number := fun conv =>
    match conv with
    | some n => .ok (.Int n)
    | none => fallback
  if utf8Len s ≥ 3 then
    match s with
    | [] => viaRadix (fromStrRadix s 10)
    | c1 :: rest1 =>
      if c1.utf8Size = 1 then
        match rest1 with
        | [] => viaRadix (fromStrRadix s 10)
        | c2 :: rest2 =>
          if c2.utf8Size = 1 then
            if c1 = '0' ∧ c2 = 'x' then viaRadix (fromStrRadix rest2 16)
            else viaRadix (fromStrRadix s 10)
          else .panic
      else if c1.utf8Size = 2 then viaRadix (fromStrRadix s 10)
      else .panic
  else viaRadix (fromStrRadix s 10)

/- ------------------ Generic RPN executor and evaluator ------------------- -/

/-- `pop_one` from `rpn_stack_manipulation.rs` (stack top is the list
head). -/
def popOne {T : Type} : List T → Outcome (T × List T)
  | x :: rest => .ok (x, rest)
  | [] => .err .UnbalancedStack

/-- `pop_two` from `rpn_stack_manipulation.rs`: pop the top (`num_1`), then
the next (`num_2`), and return `(num_2, num_1)` — the element pushed earlier
comes first. -/
def popTwo {T : Type} : List T → Outcome ((T × T) × List T)
  | x :: y :: rest => .ok ((y, x), rest)
  | _ => .err .UnbalancedStack

/-- `execute_unary` from `rpn_stack_manipulation.rs`. -/
def executeUnary {T : Type} (stack : List T) (op : UnaryOp)
    (exec : T → UnaryOp → Outcome T) : Outcome (List T) :=
  (popOne stack).bind fun p => (exec p.1 op).bind fun c => .ok (c :: p.2)

/-- `execute_binary` from `rpn_stack_manipulation.rs`: the earlier-pushed
element becomes the first argument of the callback. -/
def executeBinary {T : Type} (stack : List T) (op : BinaryOp)
    (exec : T → T → BinaryOp → Outcome T) : Outcome (List T) :=
  (popTwo stack).bind fun p => (exec p.1.1 p.1.2 op).bind fun c => .ok (c :: p.2)

/-- `exec_rpn_one_action` from `rpn_stack_manipulation.rs`. -/
def execRpnOne {T : Type} (stack : List T) (action : RPN)
    (computeName : List Char → Outcome T) (cu : T → UnaryOp → Outcome T)
    (cb : T → T → BinaryOp → Outcome T) : Outcome (List T) :=
  match action with
  | .Name x => (computeName x).bind fun v => .ok (v :: stack)
  | .Unary op => executeUnary stack op cu
  | .Binary op => executeBinary stack op cb

/-- The action loop of `exec_rpn`. -/
def execRpnList {T : Type} (actions : List RPN) (stack : List T)
    (computeName : List Char → Outcome T) (cu : T → UnaryOp → Outcome T)
    (cb : T → T → BinaryOp → Outcome T) : Outcome (List T) :=
  match actions with
  | [] => .ok stack
  | a :: rest =>
    (execRpnOne stack a computeName cu cb).bind fun s2 =>
      execRpnList rest s2 computeName cu cb

/-- `exec_rpn` from `rpn_stack_manipulation.rs`: run all actions, then demand
exactly one value on the stack. -/
def execRpn {T : Type} (actions : List RPN)
    (computeName : List Char → Outcome T) (cu : T → UnaryOp → Outcome T)
    (cb : T → T → BinaryOp → Outcome T) : Outcome T :=
  (execRpnList actions [] computeName cu cb).bind fun stack =>
    if stack.length = 1 then (popOne stack).bind fun p => .ok p.1
    else .err .UnbalancedStack

/-- `compute_unary` of the evaluator: `!`, multiplication by `Int(-1)`, and
identity. -/
def computeUnaryNum (num : Number) (op : UnaryOp) : Outcome Number :=
  match op with
  | .Not => num.bnot
  | .Minus => .ok ((Number.Int (-1)).mul num)
  | .Plus => .ok num

/-- `compute_binary` of the evaluator: the `Number` operator table. -/
def computeBinaryNum (n1 n2 : Number) (op : BinaryOp) : Outcome Number :=
  match op with
  | .Multiplication => .ok (n1.mul n2)
  | .Division => n1.div n2
  | .IntegerDivision => n1.integer_div n2
  | .Reminder => n1.rem n2
  | .Addition => .ok (n1.add n2)
  | .Subtraction => .ok (n1.sub n2)
  | .ShiftLeft => n1.shl n2
  | .ShiftRight => n1.shr n2
  | .BitwiseAnd => n1.bitand n2
  | .BitwiseOr => n1.bitor n2
  | .BitwiseXor => n1.bitxor n2

/-- A variable lookup, modelling the `name → Option<replacement>` callback. -/
def VarLookup : Type := List Char → Option (List Char)

/-- The evaluator run with no variable lookup: every name is read with
`number_from_string`. -/
def mathSolveNoMap (actions : List RPN) : Outcome Number :=
  execRpn actions numberFromString computeUnaryNum computeBinaryNum

/-- The recursive call of `read_name` on a lookup hit: the replacement text
goes through the full pipeline (parse, then evaluate) with `None` as the
variable map, exactly as `crate::compute(&new_name, None)` in `solve.rs` and
`math_compute(&new_name, None)` in `maths.rs`.  Because the inner run uses no
lookup, one unfolding of the recursion suffices. -/
def computeNoMap (s : List Char) : Outcome Number :=
  (MathParse.parse s).bind fun mp => mathSolveNoMap mp.internal

/-- `read_name` from `solve.rs`: a lookup hit is recursively parsed and
evaluated with no variable map; a miss is read as a numeric literal. -/
def readName (map : VarLookup) (name : List Char) : Outcome Number :=
  match map name with
  | some replacement => computeNoMap replacement
  | none => numberFromString name

/-- `math_solve` from `solve.rs`, in the `exec_rpn`-based form its callers
(`lib.rs`, `parse_rpn.rs`) use: the generic executor with the numeric
callbacks. -/
def mathSolve (actions : List RPN) (map : VarLookup) : Outcome Number :=
  execRpn actions (readName map) computeUnaryNum computeBinaryNum

/- --------------------------- Public solving ------------------------------ -/

/-- The variable map of the public API (`HashMap<String, String>` modelled as
an association list). -/
def VarMap : Type := List (List Char × List Char)

/-- `HashMap::get` on the association-list model. -/
def hashGet (m : VarMap) (k : List Char) : Option (List Char) :=
  match m with
  | [] => none
  | p :: rest => if p.1 = k then some p.2 else hashGet rest k

/-- The `map_function` closure of `MathParse::solve_auto`. -/
def mapFunction (m : Option VarMap) : VarLookup := fun s =>
  match m with
  | none => none
  | some mm => hashGet mm s

/-- The inner `Result<i64, f64>` of `solve_auto`: `int` models the `Ok`
branch, `float` the `Err` branch. -/
inductive AutoResult where
  | int (i : Int)
  | float (f : Rat)
  deriving DecidableEq

/-- `MathParse::solve_auto` from `lib.rs`: an `Int` result is returned
directly; a `Float` result is narrowed with `f_to_i_strict` when possible and
otherwise returned in the inner `Err` branch. -/
def MathParse.solve_auto (mp : MathParse) (map : Option VarMap) :
    Outcome AutoResult :=
  match mathSolve mp.internal (mapFunction map) with
  | .ok (.Int i) => .ok (.int i)
  | .ok (.Float f) =>
    .ok (match fToIStrict f with
         | .ok i => .int i
         | _ => .float f)
  | .err e => .err e
  | .panic => .panic
  | .diverge => .diverge

/-- Parse an infix expression and run `solve_auto`. -/
def solveAutoStr (s : List Char) (map : Option VarMap) : Outcome AutoResult :=
  (MathParse.parse s).bind fun mp => mp.solve_auto map

/- ------------------------ RPN-notation parsing --------------------------- -/

/-- The separator class of `split_words` in `parse_rpn.rs`: tab, space,
newline, carriage return and the non-breaking space `U+00A0`. -/
def isSepChar (c : Char) : Bool :=
  c = '\t' ∨ c = ' ' ∨ c = '\n' ∨ c = '\r' ∨ c = ' '

/-- `split_words` from `parse_rpn.rs`. -/
def splitWordsGo : List Char → List Char → List (List Char)
  | [], cur => if cur = [] then [] else [cur]
  | c :: rest, cur =>
    if isSepChar c then
      (if cur = [] then [] else [cur]) ++ splitWordsGo rest []
    else splitWordsGo rest (cur ++ [c])

/-- `split_words` from `parse_rpn.rs`: split on the separator class, dropping
empty words. -/
def splitWords (s : List Char) : List (List Char) := splitWordsGo s []

/-- `parse_rpn_operator` from `parse_rpn.rs`: operator characters become
`Binary` instructions; characters with no binary meaning are
`InvalidRPNOperator`. -/
def parseRpnOperator (c : Char) : Outcome (List RPN) :=
  match BinaryOp.from_char c with
  | .ok x => .ok [.Binary x]
  | .err .MathParseInternalBug => .err (.InvalidRPNOperator c)
  | .err e => .err e
  | .panic => .panic
  | .diverge => .diverge

/-- `rpn_parse_tokens` from `parse_rpn.rs`. -/
def rpnParseTokens : List MathValue → Outcome (List RPN)
  | [] => .ok []
  | t :: rest =>
    (match t with
     | .Name x => Outcome.ok ((splitWords x).map RPN.Name)
     | .Operator x => parseRpnOperator x
     | .TrailingError => Outcome.ok []
     | .ParenOpen 1 => Outcome.ok []
     | _ => Outcome.err .MathParseInternalBug).bind fun vs =>
    (rpnParseTokens rest).bind fun rs => .ok (vs ++ rs)

/-- The `map_to_one` lookup of `check_rpn_valid`: every name resolves to the
literal `"1"`. -/
def mapToOne : VarLookup := fun _ => some ['1']

/-- `check_rpn_valid` from `parse_rpn.rs`: trial evaluation with
`map_to_one`. -/
def checkRpnValid (rpn : List RPN) : Outcome Unit :=
  match mathSolve rpn mapToOne with
  | .ok _ => .ok ()
  | .err e => .err e
  | .panic => .panic
  | .diverge => .diverge

/-- `parse_rpn` from `parse_rpn.rs`: tokenize, build the instruction list,
validate it. -/
def parseRpnStr (s : List Char) : Outcome (List RPN) :=
  (rpnParseTokens (mathToken s)).bind fun rpn =>
    (checkRpnValid rpn).bind fun _ => .ok rpn

/-- `MathParse::parse_rpn` from `lib.rs`. -/
def MathParse.parse_rpn (s : List Char) : Outcome MathParse :=
  (parseRpnStr s).bind fun l => .ok ⟨l⟩

/- ------------------------- Tree view and display ------------------------- -/

/-- The `Tree` enum of `lib.rs`. -/
inductive DisplayTree where
  | Name (s : List Char)
  | Unary (op : UnaryOp) (t : DisplayTree)
  | Binary (op : BinaryOp) (l r : DisplayTree)
  deriving DecidableEq

/-- `pop_one` from `tree.rs` (an empty stack is an internal-bug error
there). -/
def treePopOne : List DisplayTree → Outcome (DisplayTree × List DisplayTree)
  | x :: rest => .ok (x, rest)
  | [] => .err .MathParseInternalBug

/-- `pop_two` from `tree.rs`: same reversed pair as the generic executor. -/
def treePopTwo : List DisplayTree → Outcome ((DisplayTree × DisplayTree) × List DisplayTree)
  | x :: y :: rest => .ok ((y, x), rest)
  | _ => .err .MathParseInternalBug

/-- The action loop of `parse_to_tree` in `tree.rs`. -/
def parseToTreeGo : List RPN → List DisplayTree → Outcome (List DisplayTree)
  | [], st => .ok st
  | a :: rest, st =>
    (match a with
     | .Name x => Outcome.ok (DisplayTree.Name x :: st)
     | .Unary op => (treePopOne st).bind fun p => .ok (DisplayTree.Unary op p.1 :: p.2)
     | .Binary op =>
       (treePopTwo st).bind fun p => .ok (DisplayTree.Binary op p.1.1 p.1.2 :: p.2)).bind
      fun st2 => parseToTreeGo rest st2

/-- `parse_to_tree` from `tree.rs`: fold the instruction list, then pop the
result (leftover stack elements are not checked there). -/
def parseToTree (actions : List RPN) : Outcome DisplayTree :=
  (parseToTreeGo actions []).bind fun st => (treePopOne st).bind fun p => .ok p.1

/-- `MathParse::to_tree` from `lib.rs`. -/
def MathParse.to_tree (mp : MathParse) : Outcome DisplayTree :=
  parseToTree mp.internal

/-- `impl Display for UnaryOp` from `lib.rs`. -/
def UnaryOp.display : UnaryOp → List Char
  | .Not => ['!']
  | .Minus => ['-']
  | .Plus => ['+']

/-- `impl Display for BinaryOp` from `lib.rs`; note that `BitwiseXor` is
rendered as `⊕`, which is not in `MATH_CHARS`. -/
def BinaryOp.display : BinaryOp → List Char
  | .Multiplication => ['*']
  | .Division => ['/']
  | .IntegerDivision => ['/', '/']
  | .Reminder => ['%']
  | .Addition => ['+']
  | .Subtraction => ['-']
  | .ShiftLeft => ['<', '<']
  | .ShiftRight => ['>', '>']
  | .BitwiseAnd => ['&']
  | .BitwiseOr => ['|']
  | .BitwiseXor => ['⊕']

/-- The formatting work-stack entries of `impl Display for Tree`. -/
inductive TreeFmt where
  | S (s : List Char)
  | T (t : DisplayTree)

/-- The formatting loop of `impl Display for Tree` in `lib.rs`: binary nodes
as `(left op right)` with spaces around the operator, unary operators
directly prefixed. -/
def treeFmtGo : Nat → List TreeFmt → List Char → Outcome (List Char)
  | _, [], acc => .ok acc
  | 0, _ :: _, _ => .diverge
  | gas + 1, item :: rest, acc =>
    match item with
    | .T (.Name s) => treeFmtGo gas rest (acc ++ s)
    | .T (.Unary op next) => treeFmtGo gas (.T next :: rest) (acc ++ op.display)
    | .T (.Binary op n1 n2) =>
      treeFmtGo gas
        (.T n1 :: .S (' ' :: op.display ++ [' ']) :: .T n2 :: .S [')'] :: rest)
        (acc ++ ['('])
    | .S s => treeFmtGo gas rest (acc ++ s)

/-- Node count of a display tree. -/
def treeSize : DisplayTree → Nat
  | .Name _ => 1
  | .Unary _ t => 1 + treeSize t
  | .Binary _ l r => 1 + treeSize l + treeSize r

/-- `Tree`'s `to_string` (the `Display` loop always terminates; the gas
chosen here is always sufficient). -/
def treeToString (t : DisplayTree) : Outcome (List Char) :=
  treeFmtGo (5 * treeSize t + 5) [.T t] []

/- --------------------- Helper definitions for statements ------------------ -/

/-- Whether a `Number` is in the `Int` variant. -/
def Number.isInt : Number → Bool
  | .Int _ => true
  | .Float _ => false

/-- The single display character of a unary operator. -/
def UnaryOp.displayChar : UnaryOp → Char
  | .Not => '!'
  | .Minus => '-'
  | .Plus => '+'

/-- The `Number` operation denoted by one of the always-total operator
characters `+`, `-`, `*`. -/
def addSubMulFor (c : Char) (x y : Number) : Number :=
  if c = '+' then x.add y
  else if c = '-' then x.sub y
  else x.mul y

/-- A display tree that is a name wrapped in a chain of unary operators. -/
def chainTree : List UnaryOp → List Char → DisplayTree
  | [], nm => .Name nm
  | op :: rest, nm => .Unary op (chainTree rest nm)

/-- The positional line produced by parsing a rendered unary chain. -/
def unaryChainLine (ops : List UnaryOp) (nm : List Char) : List MathValue :=
  ops.map (fun o => .UnaryOperation o.displayChar 1) ++ [.Name nm, .TrailingError]

/-- The parsed positional array of the expression `5<<-1`: the `<<` merge
placeholder `ParenOpen(1)` cleared the unary flag, so `-` was kept as a
binary operator, and the offset rebasing of `make_op` turned the placeholder
into the self-referential `ParenOpen(0)` at index 3. -/
def line5shl : List MathValue :=
  [.Operation '≪' 1 2, .Name ['5'], .Operation '-' 1 2, .ParenOpen 0,
   .Name ['1'], .TrailingError]

/- ------------------------------- Theorems -------------------------------- -/

/-- C9: the claim that no user-triggerable input can panic is refuted by the
code: `number_from_string` byte-slices `&s[0..2]` after a byte-length check,
and for the name `€25` (first character 3 bytes wide) byte index 2 is not a
character boundary, so the slice panics.  The input parses fine (`€` is not
an operator character), and `solve_auto` then panics while reading the
name. -/
theorem C9_arbitrary_name_panics :
    numberFromString ("€25".toList) = .panic ∧
    MathParse.parse ("€25".toList) = .ok ⟨[.Name ("€25".toList)]⟩ ∧
    solveAutoStr ("€25".toList) none = .panic := by
  refine ⟨?_, ?_, ?_⟩ <;> with_unfolding_all rfl

/-- C10: `pop_two` returns the pair in reversed pop order, so a `Binary(op)`
instruction applies `op` with the earlier-pushed (deeper) element as the left
operand; `[Name 8, Name 2, Binary Division]` evaluates to `8/2 = 4`, and the
tree builder makes the earlier-pushed subtree the left child. -/
theorem C10_rpn_binary_operand_order :
    (∀ (T : Type) (x y : T) (rest : List T),
       popTwo (x :: y :: rest) = .ok ((y, x), rest)) ∧
    (∀ (T : Type) (x y : T) (rest : List T) (op : BinaryOp)
       (exec : T → T → BinaryOp → Outcome T),
       executeBinary (x :: y :: rest) op exec =
         (exec y x op).bind fun c => .ok (c :: rest)) ∧
    mathSolve [.Name ['8'], .Name ['2'], .Binary .Division] (fun _ => none) =
      .ok (.Float 4) ∧
    parseToTree [.Name ['8'], .Name ['2'], .Binary .Division] =
      .ok (.Binary .Division (.Name ['8']) (.Name ['2'])) := by
  refine ⟨fun T x y rest => rfl, fun T x y rest op exec => rfl, ?_, ?_⟩ <;>
    with_unfolding_all rfl

/-- C8: solving `-−-+++-a` with `a ↦ 3` yields the integer 3: all seven
leading sign characters are tagged as unary operations (`−` as `-`), unary
minus multiplies by `Int(-1)` and unary plus is the identity, and the four
minus signs compose to a positive sign. -/
theorem C8_chained_unary_signs :
    solveAutoStr ("-−-+++-a".toList) (some [("a".toList, "3".toList)]) =
      .ok (.int 3) ∧
    unaryParse (mathToken ("-−-+++-a".toList)) true =
      .ok [.UnaryOperation '-' 1, .UnaryOperation '-' 1, .UnaryOperation '-' 1,
           .UnaryOperation '+' 1, .UnaryOperation '+' 1, .UnaryOperation '+' 1,
           .UnaryOperation '-' 1, .Name ['a'], .TrailingError] ∧
    (∀ v : Number, computeUnaryNum v .Minus = .ok ((Number.Int (-1)).mul v)) ∧
    (∀ v : Number, computeUnaryNum v .Plus = .ok v) := by
  refine ⟨?_, ?_, fun v => rfl, fun v => rfl⟩ <;> with_unfolding_all rfl

/-- On the array parsed from `5<<-1`, the RPN conversion machine cycles
forever once it reaches `Solve 3`: index 3 holds `ParenOpen(0)`, which
redirects to itself, so every amount of gas is exhausted. -/
theorem rpnMachine_line5shl_cycle (gas : Nat) (rest : List RPNSteps)
    (acc : List RPN) :
    rpnMachine gas line5shl (.Solve 3 :: rest) acc = .diverge := by
  induction gas with
  | zero => rfl
  | succ g ih => exact ih

/-- C4: the bitwise operations and shifts fail with `BinaryOpOnFloat`
carrying the offending float and the operator symbol when either operand is
a float, and shifts on two integers fail with `UnexpectedNegative` for a
negative shift amount.  The claimed scenario `5<<-1`, however, never reaches
the evaluator: the `<<` merge placeholder cleared the unary flag, `-` stayed
binary, and the parsed array contains the self-referential `ParenOpen(0)`,
so the conversion to RPN inside `MathParse::parse` loops forever (the claim
says the solve yields `UnexpectedNegative`). -/
theorem C4_bitwise_float_negative_shift :
    (∀ (f : Rat) (y : Number),
       (Number.Float f).bitxor y = .err (.BinaryOpOnFloat f '^') ∧
       (Number.Float f).bitand y = .err (.BinaryOpOnFloat f '&') ∧
       (Number.Float f).bitor y = .err (.BinaryOpOnFloat f '|') ∧
       (Number.Float f).shl y = .err (.BinaryOpOnFloat f '≪') ∧
       (Number.Float f).shr y = .err (.BinaryOpOnFloat f '≫')) ∧
    (∀ (a : Int) (f : Rat),
       (Number.Int a).bitxor (.Float f) = .err (.BinaryOpOnFloat f '^') ∧
       (Number.Int a).bitand (.Float f) = .err (.BinaryOpOnFloat f '&') ∧
       (Number.Int a).bitor (.Float f) = .err (.BinaryOpOnFloat f '|') ∧
       (Number.Int a).shl (.Float f) = .err (.BinaryOpOnFloat f '≪') ∧
       (Number.Int a).shr (.Float f) = .err (.BinaryOpOnFloat f '≫')) ∧
    (∀ a b : Int, b < 0 →
       (Number.Int a).shl (.Int b) = .err .UnexpectedNegative ∧
       (Number.Int a).shr (.Int b) = .err .UnexpectedNegative) ∧
    mathParse ("5<<-1".toList) = .ok line5shl ∧
    (∀ (gas : Nat) (rest : List RPNSteps) (acc : List RPN),
       rpnMachine gas line5shl (.Solve 3 :: rest) acc = .diverge) ∧
    MathParse.parse ("5<<-1".toList) = .diverge := by
  refine ⟨fun f y => ⟨rfl, rfl, rfl, rfl, rfl⟩,
          fun a f => ⟨rfl, rfl, rfl, rfl, rfl⟩,
          ?_, ?_, rpnMachine_line5shl_cycle, ?_⟩
  · intro a b h
    have hneg : (Number.Int b).is_negative = true := by
      simp [Number.is_negative]; exact h
    constructor
    · simp [Number.shl, Number.err_on_float, Number.err_on_negative, hneg,
            Outcome.bind]
    · simp [Number.shr, Number.err_on_float, Number.err_on_negative, hneg,
            Outcome.bind]
  · with_unfolding_all rfl
  · with_unfolding_all rfl

/-- C4 witness: the proved laws instantiated at concrete operands. -/
theorem C4_bitwise_float_negative_shift_witness :
    (Number.Int 5).shl (.Int (-1)) = .err .UnexpectedNegative ∧
    (Number.Int 5).shr (.Int (-1)) = .err .UnexpectedNegative :=
  C4_bitwise_float_negative_shift.2.2.1 5 (-1) (by decide)

/-- C3: division and remainder fail with `UnexpectedZero` exactly when the
right operand is zero (`Int 0` or `Float 0.0`, tested before promotion); a
non-zero divisor makes division return a `Float` for every operand pair,
while a remainder result is `Int` exactly when both operands are `Int`; and
`5/0` and `5%0` both solve to `UnexpectedZero`. -/
theorem C3_division_remainder_zero :
    (∀ a b : Number, (a.div b = .err .UnexpectedZero ↔ b.is_zero = true)) ∧
    (∀ a b : Number, (a.rem b = .err .UnexpectedZero ↔ b.is_zero = true)) ∧
    (∀ a b : Number, b.is_zero = false → ∃ q : Rat, a.div b = .ok (.Float q)) ∧
    (∀ a b v : Number, a.rem b = .ok v → v.isInt = (a.isInt && b.isInt)) ∧
    solveAutoStr ("5/0".toList) none = .err .UnexpectedZero ∧
    solveAutoStr ("5%0".toList) none = .err .UnexpectedZero := by
  refine ⟨?_, ?_, ?_, ?_, ?_, ?_⟩
  · intro a b
    by_cases hz : b.is_zero = true
    · simp [hz, Number.div, Number.err_on_zero, Outcome.bind]
    · simp only [hz, iff_false]
      cases a <;> cases b <;>
        simp [Number.div, Number.err_on_zero, Outcome.bind] <;>
        simp_all [Number.is_zero]
  · intro a b
    by_cases hz : b.is_zero = true
    · simp [hz, Number.rem, Number.err_on_zero, Outcome.bind]
    · simp only [hz, iff_false]
      cases a <;> cases b <;>
        simp [Number.rem, Number.err_on_zero, Outcome.bind] <;>
        simp_all [Number.is_zero] <;> split <;> simp
  · intro a b h
    cases a <;> cases b <;>
      simp [Number.div, Number.err_on_zero, h, Outcome.bind]
  · intro a b v h
    by_cases hz : b.is_zero = true
    · rw [show a.rem b = .err .UnexpectedZero by
          simp [Number.rem, Number.err_on_zero, hz, Outcome.bind]] at h
      simp at h
    · have hb : b.err_on_zero = .ok () := by simp [Number.err_on_zero, hz]
      cases a with
      | Int s =>
        cases b with
        | Int o =>
          simp only [Number.rem, hb, Outcome.bind] at h
          by_cases hp : s = I64MIN ∧ o = -1
          · rw [if_pos hp] at h; simp at h
          · rw [if_neg hp] at h; injection h with h2; rw [← h2]; rfl
        | Float q =>
          simp only [Number.rem, hb, Outcome.bind] at h
          injection h with h2; rw [← h2]; rfl
      | Float p =>
        cases b with
        | Int o =>
          simp only [Number.rem, hb, Outcome.bind] at h
          injection h with h2; rw [← h2]; rfl
        | Float q =>
          simp only [Number.rem, hb, Outcome.bind] at h
          injection h with h2; rw [← h2]; rfl
  · with_unfolding_all rfl
  · with_unfolding_all rfl

/-- C3 witness: the zero and non-zero laws instantiated at concrete
operands. -/
theorem C3_division_remainder_zero_witness :
    (Number.Int 5).div (.Int 0) = .err .UnexpectedZero ∧
    (Number.Int 5).rem (.Float 0) = .err .UnexpectedZero ∧
    (∃ q : Rat, (Number.Int 8).div (.Int 2) = .ok (.Float q)) ∧
    (Number.Int 7).rem (.Int 2) = .ok (.Int 1) ∧ ((Number.Int 1).isInt =
      ((Number.Int 7).isInt && (Number.Int 2).isInt)) :=
  ⟨(C3_division_remainder_zero.1 (.Int 5) (.Int 0)).mpr (by decide),
   (C3_division_remainder_zero.2.1 (.Int 5) (.Float 0)).mpr (by decide),
   C3_division_remainder_zero.2.2.1 (.Int 8) (.Int 2) (by decide),
   by with_unfolding_all rfl,
   C3_division_remainder_zero.2.2.2.1 (.Int 7) (.Int 2) (.Int 1)
     (by with_unfolding_all rfl)⟩

/-- The `FloorRing` floor on `Rat` is `Rat.floor`. -/
theorem ratFloor_eq_floor (q : Rat) : Rat.floor q = ⌊q⌋ := rfl

/-- Rounding half away from zero fixes integers. -/
theorem rustRound_intCast (i : Int) : rustRound (i : Rat) = i := by
  unfold rustRound
  have h1 : Rat.floor ((i : Rat) + 1/2) = i := by
    rw [ratFloor_eq_floor, add_comm, Int.floor_add_int]
    norm_num
  have h2 : Rat.floor (-(i : Rat) + 1/2) = -i := by
    rw [ratFloor_eq_floor]
    rw [show -(i : Rat) = ((-i : Int) : Rat) by push_cast; ring]
    rw [add_comm, Int.floor_add_int]
    norm_num
  split
  · exact h1
  · rw [h2]; simp

/-- C1: `solve_auto` returns the inner `Ok(i)` when the evaluator produced
`Int(i)`, or when it produced a float that strict narrowing converts exactly
back — characterized as: the float already equals an integer lying within the
safe range `±2^53`; in every other successful case the float is returned in
the inner `Err` branch; and `parse("3+8.0").solve_auto(None) = Ok(Ok(11))`. -/
theorem C1_solve_auto_narrowing :
    (∀ (mp : MathParse) (map : Option VarMap) (i : Int),
       mathSolve mp.internal (mapFunction map) = .ok (.Int i) →
       mp.solve_auto map = .ok (.int i)) ∧
    (∀ (mp : MathParse) (map : Option VarMap) (f : Rat) (i : Int),
       mathSolve mp.internal (mapFunction map) = .ok (.Float f) →
       fToIStrict f = .ok i →
       mp.solve_auto map = .ok (.int i)) ∧
    (∀ (mp : MathParse) (map : Option VarMap) (f : Rat) (e : MathParseErrors),
       mathSolve mp.internal (mapFunction map) = .ok (.Float f) →
       fToIStrict f = .err e →
       mp.solve_auto map = .ok (.float f)) ∧
    (∀ (f : Rat) (i : Int),
       fToIStrict f = .ok i ↔
         (iToF i = f ∧ -INTEGRAL_LIMIT ≤ iToF i ∧ iToF i ≤ INTEGRAL_LIMIT)) ∧
    INTEGRAL_LIMIT = 2 ^ 53 ∧
    solveAutoStr ("3+8.0".toList) none = .ok (.int 11) := by
  refine ⟨?_, ?_, ?_, ?_, by norm_num [INTEGRAL_LIMIT], ?_⟩
  · intro mp map i h
    simp [MathParse.solve_auto, h]
  · intro mp map f i h hs
    simp [MathParse.solve_auto, h, hs]
  · intro mp map f e h hs
    simp [MathParse.solve_auto, h, hs]
  · intro f i
    constructor
    · intro h
      unfold fToIStrict fToI at h
      by_cases h1 : ((rustRound f : Int) : Rat) > INTEGRAL_LIMIT
      · rw [if_pos h1] at h; simp [Outcome.bind] at h
      · rw [if_neg h1] at h
        by_cases h2 : ((rustRound f : Int) : Rat) < -1 * INTEGRAL_LIMIT
        · rw [if_pos h2] at h; simp [Outcome.bind] at h
        · rw [if_neg h2] at h
          simp only [Outcome.bind] at h
          by_cases h3 : iToF (rustRound f) = f
          · rw [if_pos h3] at h
            injection h with h4
            subst h4
            refine ⟨h3, ?_, ?_⟩
            · unfold iToF; linarith [not_lt.mp h2]
            · unfold iToF; exact not_lt.mp h1
          · rw [if_neg h3] at h; simp at h
    · rintro ⟨hf, h1, h2⟩
      have hr : rustRound f = i := by rw [← hf]; exact rustRound_intCast i
      unfold fToIStrict fToI
      rw [hr]
      rw [if_neg (by unfold iToF at h2; exact not_lt.mpr h2)]
      rw [if_neg (by unfold iToF at h1; linarith)]
      simp [Outcome.bind, hf]
  · with_unfolding_all rfl

/-- C1 witness: the three `solve_auto` branches and the narrowing
characterization at concrete inputs. -/
theorem C1_solve_auto_narrowing_witness :
    MathParse.solve_auto ⟨[.Name ['7']]⟩ none = .ok (.int 7) ∧
    MathParse.solve_auto ⟨[.Name ['8', '.', '0']]⟩ none = .ok (.int 8) ∧
    MathParse.solve_auto ⟨[.Name ['8', '.', '5']]⟩ none = .ok (.float (17/2)) ∧
    fToIStrict 11 = .ok 11 :=
  ⟨C1_solve_auto_narrowing.1 ⟨[.Name ['7']]⟩ none 7 (by with_unfolding_all rfl),
   C1_solve_auto_narrowing.2.1 ⟨[.Name ['8', '.', '0']]⟩ none 8 8
     (by with_unfolding_all rfl) (by with_unfolding_all rfl),
   C1_solve_auto_narrowing.2.2.1 ⟨[.Name ['8', '.', '5']]⟩ none (17/2)
     (.ReturnFloatExpectedInt (17/2)) (by with_unfolding_all rfl)
     (by with_unfolding_all rfl),
   (C1_solve_auto_narrowing.2.2.2.1 11 11).mpr
     (by refine ⟨by norm_num [iToF], by norm_num [iToF, INTEGRAL_LIMIT], ?_⟩
         norm_num [iToF, INTEGRAL_LIMIT])⟩

/-- A non-empty run of non-operator characters tokenizes (with pending run
`cur`) into one `Name` token and the sentinel. -/
theorem tokenBase_name (nm : List Char) :
    ∀ cur : List Char, cur ++ nm ≠ [] → (∀ c ∈ nm, isMathChar c = false) →
    tokenBase nm cur = [.Name (cur ++ nm), .TrailingError] := by
  induction nm with
  | nil =>
    intro cur h1 _
    simp only [List.append_nil] at h1 ⊢
    simp [tokenBase, h1]
  | cons c rest ih =>
    intro cur _ h2
    have hc : isMathChar c = false := h2 c (by simp)
    have h3 := ih (cur ++ [c]) (by simp) (fun x hx => h2 x (by simp [hx]))
    simp only [tokenBase, hc, Bool.false_eq_true, if_false]
    rw [h3]
    simp

/-- A name, an operator character and a trailing rest tokenize into the name
token, the operator token, and the tokens of the rest. -/
theorem tokenBase_mid (na : List Char) (c : Char) (nb : List Char) :
    ∀ cur : List Char, cur ++ na ≠ [] → (∀ x ∈ na, isMathChar x = false) →
    isMathChar c = true →
    tokenBase (na ++ c :: nb) cur =
      .Name (cur ++ na) :: .Operator c :: tokenBase nb [] := by
  induction na with
  | nil =>
    intro cur h1 _ hc
    simp only [List.append_nil] at h1 ⊢
    simp [tokenBase, hc, h1]
  | cons x rest ih =>
    intro cur _ h2 hc
    have hx : isMathChar x = false := h2 x (by simp)
    have h3 := ih (cur ++ [x]) (by simp) (fun z hz => h2 z (by simp [hz])) hc
    simp only [List.cons_append, tokenBase, hx, Bool.false_eq_true, if_false,
      List.append_eq]
    rw [h3]
    simp

/-- Tokenizing `na c nb` for operator-free non-empty names and a
non-compound operator character. -/
theorem mathToken_two_names (na nb : List Char) (c : Char)
    (hna1 : na ≠ []) (hna2 : ∀ x ∈ na, isMathChar x = false)
    (hnb1 : nb ≠ []) (hnb2 : ∀ x ∈ nb, isMathChar x = false)
    (hc : isMathChar c = true) :
    mathToken (na ++ c :: nb) =
      [.Name na, .Operator c, .Name nb, .TrailingError] := by
  unfold mathToken
  rw [tokenBase_mid na c nb [] (by simpa) hna2 hc,
      tokenBase_name nb [] (by simpa) hnb2]
  rfl

/-- Feeding a single produced value through the final stack-size check of
`exec_rpn` returns the value unchanged. -/
theorem outcomeBindSingleton (o : Outcome Number) :
    ((o.bind fun cr => Outcome.ok [cr]).bind fun stack =>
       if stack.length = 1 then (popOne stack).bind fun p => .ok p.1
       else .err .UnbalancedStack) = o := by
  cases o <;> rfl

/-- Evaluating the instruction list `[Name na, Name nb, Binary op]`: both
names are read, then the binary table is applied with the first name on the
left. -/
theorem mathSolve_two (na nb : List Char) (x y : Number) (map : VarLookup)
    (op : BinaryOp) (hx : readName map na = .ok x) (hy : readName map nb = .ok y) :
    mathSolve [.Name na, .Name nb, .Binary op] map = computeBinaryNum x y op := by
  have hlist : execRpnList [.Name na, .Name nb, .Binary op] [] (readName map)
      computeUnaryNum computeBinaryNum =
      (computeBinaryNum x y op).bind fun cr => .ok [cr] := by
    simp [execRpnList, execRpnOne, executeBinary, popTwo, Outcome.bind, hx, hy]
    cases computeBinaryNum x y op <;> rfl
  unfold mathSolve execRpn
  rw [hlist]
  exact outcomeBindSingleton (computeBinaryNum x y op)

/-- Parsing `na c nb` for an additive or multiplicative operator character
yields the instruction list `[Name na, Name nb, Binary op]`. -/
theorem parse_two_names (na nb : List Char) (c : Char) (op : BinaryOp)
    (hna1 : na ≠ []) (hna2 : ∀ x ∈ na, isMathChar x = false)
    (hnb1 : nb ≠ []) (hnb2 : ∀ x ∈ nb, isMathChar x = false)
    (hco : (c = '+' ∧ op = .Addition) ∨ (c = '-' ∧ op = .Subtraction) ∨
           (c = '*' ∧ op = .Multiplication)) :
    MathParse.parse (na ++ c :: nb) = .ok ⟨[.Name na, .Name nb, .Binary op]⟩ := by
  rcases hco with ⟨rfl, rfl⟩ | ⟨rfl, rfl⟩ | ⟨rfl, rfl⟩ <;>
  · unfold MathParse.parse mathParse
    rw [mathToken_two_names na nb _ hna1 hna2 hnb1 hnb2 (by decide)]
    rfl

/-- C2: on two `Int` operands, `+`, `-` and `*` stay in the (wrapping) 64-bit
integer domain; the result of `+`, `-`, `*` is `Int` exactly when both
operands are `Int`, a float operand promoting the other side; consequently
parsing and evaluating `na op nb` with two integer literals yields the `Int`
combination, and a float literal on either side forces a `Float` result. -/
theorem C2_add_sub_mul_promotion :
    (∀ a b : Int,
       (Number.Int a).add (.Int b) = .Int (wrap64 (a + b)) ∧
       (Number.Int a).sub (.Int b) = .Int (wrap64 (a - b)) ∧
       (Number.Int a).mul (.Int b) = .Int (wrap64 (a * b))) ∧
    (∀ x y : Number,
       (x.add y).isInt = (x.isInt && y.isInt) ∧
       (x.sub y).isInt = (x.isInt && y.isInt) ∧
       (x.mul y).isInt = (x.isInt && y.isInt)) ∧
    (∀ (a : Int) (q : Rat),
       (Number.Int a).add (.Float q) = .Float (iToF a + q) ∧
       (Number.Float q).add (.Int a) = .Float (q + iToF a)) ∧
    (∀ (na nb : List Char) (c : Char) (op : BinaryOp) (x y : Number),
       na ≠ [] → (∀ ch ∈ na, isMathChar ch = false) →
       nb ≠ [] → (∀ ch ∈ nb, isMathChar ch = false) →
       numberFromString na = .ok x → numberFromString nb = .ok y →
       ((c = '+' ∧ op = .Addition) ∨ (c = '-' ∧ op = .Subtraction) ∨
        (c = '*' ∧ op = .Multiplication)) →
       (MathParse.parse (na ++ c :: nb)).bind
           (fun mp => mathSolve mp.internal (mapFunction none)) =
         .ok (addSubMulFor c x y)) := by
  refine ⟨fun a b => ⟨rfl, rfl, rfl⟩,
          fun x y => ?_,
          fun a q => ⟨rfl, rfl⟩,
          ?_⟩
  · cases x <;> cases y <;> exact ⟨rfl, rfl, rfl⟩
  · intro na nb c op x y hna1 hna2 hnb1 hnb2 hvx hvy hco
    rw [parse_two_names na nb c op hna1 hna2 hnb1 hnb2 hco]
    rcases hco with ⟨rfl, rfl⟩ | ⟨rfl, rfl⟩ | ⟨rfl, rfl⟩ <;>
    · show mathSolve _ (mapFunction none) = _
      rw [mathSolve_two na nb x y (mapFunction none) _ hvx hvy]
      rfl

/-- C2 witness: the string-level law applied to `4+5` (two integer literals)
and to `4.0+5` (a float literal forcing a float result). -/
theorem C2_add_sub_mul_promotion_witness :
    (MathParse.parse (['4'] ++ '+' :: ['5'])).bind
        (fun mp => mathSolve mp.internal (mapFunction none)) =
      .ok (addSubMulFor '+' (.Int 4) (.Int 5)) ∧
    (MathParse.parse (['4', '.', '0'] ++ '+' :: ['5'])).bind
        (fun mp => mathSolve mp.internal (mapFunction none)) =
      .ok (addSubMulFor '+' (.Float 4) (.Int 5)) ∧
    addSubMulFor '+' (.Int 4) (.Int 5) = .Int 9 ∧
    addSubMulFor '+' (.Float 4) (.Int 5) = .Float 9 :=
  ⟨C2_add_sub_mul_promotion.2.2.2 ['4'] ['5'] '+' .Addition (.Int 4) (.Int 5)
     (by decide) (by decide) (by decide) (by decide)
     (by with_unfolding_all rfl) (by with_unfolding_all rfl)
     (Or.inl ⟨rfl, rfl⟩),
   C2_add_sub_mul_promotion.2.2.2 ['4', '.', '0'] ['5'] '+' .Addition
     (.Float 4) (.Int 5)
     (by decide) (by decide) (by decide) (by decide)
     (by with_unfolding_all rfl) (by with_unfolding_all rfl)
     (Or.inl ⟨rfl, rfl⟩),
   by with_unfolding_all rfl,
   by with_unfolding_all rfl⟩

/-- Parsing a single operator-free non-empty name yields the one-instruction
list `[Name r]`. -/
theorem parse_single_name (r : List Char) (h1 : r ≠ [])
    (h2 : ∀ c ∈ r, isMathChar c = false) :
    MathParse.parse r = .ok ⟨[.Name r]⟩ := by
  unfold MathParse.parse mathParse mathToken
  rw [tokenBase_name r [] (by simpa) h2]
  rfl

/-- Evaluating the one-instruction list `[Name r]` with no lookup reads the
name as a numeric literal. -/
theorem mathSolveNoMap_single (r : List Char) :
    mathSolveNoMap [.Name r] = numberFromString r := by
  cases h : numberFromString r <;>
    simp [mathSolveNoMap, execRpn, execRpnList, execRpnOne, popOne,
          Outcome.bind, h]

/-- C5 amended: a lookup hit is parsed and evaluated as a full
sub-expression with NO further variable lookup, so a replacement that is
itself a bare name is interpreted as a numeric literal — chains of
indirection are not consulted again.  (With constraints making the
replacement a single name token.) -/
theorem C5_substitution_single_level (map : VarLookup) (name r : List Char)
    (hm : map name = some r)
    (h1 : r ≠ []) (h2 : ∀ c ∈ r, isMathChar c = false) :
    readName map name = numberFromString r := by
  unfold readName
  rw [hm]
  show computeNoMap r = _
  unfold computeNoMap
  rw [parse_single_name r h1 h2]
  show mathSolveNoMap [.Name r] = _
  exact mathSolveNoMap_single r

/-- C5 counterexample: with the lookup `a ↦ "b", b ↦ "2"`, solving `a` does
not resolve transitively to 2; it fails with `InvalidNumber("b")`, because
the recursive evaluation of the replacement runs with no variable map. -/
theorem C5_substitution_counterexample :
    hashGet [("a".toList, "b".toList), ("b".toList, "2".toList)] ("a".toList) =
      some ("b".toList) ∧
    hashGet [("a".toList, "b".toList), ("b".toList, "2".toList)] ("b".toList) =
      some ("2".toList) ∧
    solveAutoStr ("a".toList)
        (some [("a".toList, "b".toList), ("b".toList, "2".toList)]) =
      .err (.InvalidNumber ("b".toList)) ∧
    solveAutoStr ("a".toList)
        (some [("a".toList, "b".toList), ("b".toList, "2".toList)]) ≠
      .ok (.int 2) := by
  refine ⟨rfl, rfl, by with_unfolding_all rfl, by with_unfolding_all decide⟩

/-- C5 witness: the single-level law at the lookup `a ↦ "b"`: the replacement
is read as a literal, which fails with `InvalidNumber("b")`. -/
theorem C5_substitution_single_level_witness :
    readName (mapFunction (some [("a".toList, "b".toList)])) ("a".toList) =
      numberFromString ("b".toList) ∧
    numberFromString ("b".toList) = .err (.InvalidNumber ("b".toList)) :=
  ⟨C5_substitution_single_level (mapFunction (some [("a".toList, "b".toList)]))
     ("a".toList) ("b".toList) rfl (by decide) (by decide),
   by with_unfolding_all rfl⟩

/-- C7: `parse_rpn` builds the instruction list from whitespace-separated
words and validates it by a trial evaluation whose lookup resolves every name
to the literal `"1"`; when that trial run completes with a stack holding any
number of values other than one, the expression is rejected with
`UnbalancedStack`; in particular `parse_rpn("3 2 + *")` is
`Err(UnbalancedStack)`. -/
theorem C7_rpn_trial_validation :
    (∀ name : List Char, readName mapToOne name = .ok (.Int 1)) ∧
    (∀ (s : List Char) (rpn : List RPN) (st : List Number),
       rpnParseTokens (mathToken s) = .ok rpn →
       execRpnList rpn [] (readName mapToOne) computeUnaryNum computeBinaryNum =
         .ok st →
       st.length ≠ 1 →
       parseRpnStr s = .err .UnbalancedStack) ∧
    parseRpnStr ("3 2 + *".toList) = .err .UnbalancedStack := by
  refine ⟨fun name => by with_unfolding_all rfl, ?_, by with_unfolding_all rfl⟩
  intro s rpn st h1 h2 h3
  unfold parseRpnStr
  rw [h1]
  simp only [Outcome.bind]
  unfold checkRpnValid mathSolve execRpn
  rw [h2]
  simp only [Outcome.bind]
  rw [if_neg h3]

/-- C7 witness: the imbalance law applied to `8 7`, whose trial evaluation
ends with two values on the stack. -/
theorem C7_rpn_trial_validation_witness :
    parseRpnStr ("8 7".toList) = .err .UnbalancedStack :=
  C7_rpn_trial_validation.2.1 ("8 7".toList)
    [.Name ['8'], .Name ['7']] [.Int 1, .Int 1]
    (by with_unfolding_all rfl) (by with_unfolding_all rfl) (by decide)

/-- The display of a unary operator is its single display character. -/
theorem UnaryOp.display_eq (o : UnaryOp) : o.display = [o.displayChar] := by
  cases o <;> rfl

/-- Node count of a chain tree. -/
theorem treeSize_chain (ops : List UnaryOp) (nm : List Char) :
    treeSize (chainTree ops nm) = ops.length + 1 := by
  induction ops with
  | nil => rfl
  | cons o rest ih => simp [chainTree, treeSize, ih]; omega

/-- Stepping the display loop through a chain tree emits the operator characters followed by the name. -/
theorem treeFmtGo_chain (ops : List UnaryOp) (nm : List Char) :
    ∀ (gas : Nat) (rest : List TreeFmt) (acc : List Char),
    gas ≥ ops.length + 2 →
    ∃ gas2, gas - (ops.length + 1) ≤ gas2 ∧
      treeFmtGo gas (.T (chainTree ops nm) :: rest) acc =
        treeFmtGo gas2 rest (acc ++ ops.map UnaryOp.displayChar ++ nm) := by
  induction ops with
  | nil =>
    intro gas rest acc hgas
    match gas, hgas with
    | g + 2, _ =>
      exact ⟨g + 1, by omega, by simp [chainTree, treeFmtGo]⟩
  | cons o rest2 ih =>
    intro gas rest acc hgas
    simp only [List.length_cons] at hgas
    obtain ⟨g, rfl⟩ : ∃ g, gas = g + 1 := ⟨gas - 1, by omega⟩
    obtain ⟨gas2, hle, heq⟩ := ih g rest (acc ++ o.display) (by omega)
    refine ⟨gas2, by simp only [List.length_cons]; omega, ?_⟩
    show treeFmtGo g (.T (chainTree rest2 nm) :: rest) (acc ++ o.display) = _
    rw [heq, UnaryOp.display_eq]
    simp

/-- Rendering a chain tree gives the operator characters followed by the name. -/
theorem treeToString_chain (ops : List UnaryOp) (nm : List Char) :
    treeToString (chainTree ops nm) = .ok (ops.map UnaryOp.displayChar ++ nm) := by
  unfold treeToString
  obtain ⟨gas2, _, heq⟩ := treeFmtGo_chain ops nm (5 * treeSize (chainTree ops nm) + 5)
    [] [] (by rw [treeSize_chain]; omega)
  rw [heq]
  cases gas2 <;> rfl

/-- Every unary display character is a math character. -/
theorem isMathChar_displayChar (o : UnaryOp) : isMathChar o.displayChar = true := by
  cases o <;> rfl

/-- First tokenizer pass on a rendered chain: each operator char becomes an `Operator` value and the trailing name one `Name` value. -/
theorem tokenBase_ops (nm : List Char) (h1 : nm ≠ [])
    (h2 : ∀ c ∈ nm, isMathChar c = false) :
    ∀ ops : List UnaryOp,
    tokenBase (ops.map UnaryOp.displayChar ++ nm) [] =
      ops.map (fun o => MathValue.Operator o.displayChar) ++
        [.Name nm, .TrailingError] := by
  intro ops
  induction ops with
  | nil => simpa using tokenBase_name nm [] (by simpa) h2
  | cons o rest ih =>
    simp only [List.map_cons, List.cons_append, tokenBase,
      isMathChar_displayChar o, if_true, List.nil_append, List.append_eq]
    rw [ih]

/-- Two adjacent single display characters never form a two-character operator. -/
theorem mergeOps_display (a b : UnaryOp) :
    mergeOps a.displayChar b.displayChar = none := by
  cases a <;> cases b <;> rfl

/-- The operator-merging pass leaves a chain of single operators followed by a name unchanged. -/
theorem tcGo_chain (nm : List Char) :
    ∀ (ops : List UnaryOp) (o : UnaryOp),
    tokenComplexGo (.Operator o.displayChar)
        (ops.map (fun o2 => MathValue.Operator o2.displayChar) ++
          [.Name nm, .TrailingError]) =
      .Operator o.displayChar ::
        (ops.map (fun o2 => MathValue.Operator o2.displayChar) ++
          [.Name nm, .TrailingError]) := by
  intro ops
  induction ops with
  | nil => intro o; rfl
  | cons o2 rest ih =>
    intro o
    simp only [List.map_cons, List.cons_append, tokenComplexGo,
      mergeOps_display o o2]
    rw [ih o2]

/-- `token_complex` on a rendered chain yields the operator values followed by the name value. -/
theorem tokenComplex_chain (nm : List Char) (ops : List UnaryOp) :
    tokenComplex (ops.map (fun o => MathValue.Operator o.displayChar) ++
        [.Name nm, .TrailingError]) =
      ops.map (fun o => MathValue.Operator o.displayChar) ++
        [.Name nm, .TrailingError] := by
  cases ops with
  | nil => rfl
  | cons o rest =>
    simp only [List.map_cons, List.cons_append, tokenComplex]
    rw [tcGo_chain nm rest o]

/-- Full tokenization of a rendered unary chain. -/
theorem mathToken_chain (nm : List Char) (h1 : nm ≠ [])
    (h2 : ∀ c ∈ nm, isMathChar c = false) (ops : List UnaryOp) :
    mathToken (ops.map UnaryOp.displayChar ++ nm) =
      ops.map (fun o => MathValue.Operator o.displayChar) ++
        [.Name nm, .TrailingError] := by
  unfold mathToken
  rw [tokenBase_ops nm h1 h2 ops, tokenComplex_chain nm ops]

/-- `unary_parse` tags every leading sign of a rendered chain as unary, giving `unaryChainLine`. -/
theorem unaryParse_chain (nm : List Char) :
    ∀ ops : List UnaryOp,
    unaryParse (ops.map (fun o => MathValue.Operator o.displayChar) ++
        [.Name nm, .TrailingError]) true =
      .ok (unaryChainLine ops nm) := by
  intro ops
  induction ops with
  | nil => rfl
  | cons o rest ih =>
    rw [show unaryChainLine (o :: rest) nm =
          .UnaryOperation o.displayChar 1 :: unaryChainLine rest nm by
        simp [unaryChainLine]]
    cases o with
    | Not =>
      simp only [List.map_cons, List.cons_append]
      rw [show UnaryOp.Not.displayChar = '!' from rfl]
      simp [unaryParse, ih, Outcome.bind]
    | Minus =>
      simp only [List.map_cons, List.cons_append]
      rw [show UnaryOp.Minus.displayChar = '-' from rfl]
      simp [unaryParse, ih, Outcome.bind]
    | Plus =>
      simp only [List.map_cons, List.cons_append]
      rw [show UnaryOp.Plus.displayChar = '+' from rfl]
      simp [unaryParse, ih, Outcome.bind]

/-- An element read by index is a member of the list. -/
theorem mem_of_getq : ∀ {α : Type} (l : List α) (n : Nat) (v : α),
    l[n]? = some v → v ∈ l := by
  intro α l
  induction l with
  | nil => intro n v h; cases h
  | cons x rest ih =>
    intro n v h
    cases n with
    | zero =>
      rw [List.getElem?_cons_zero] at h
      injection h with h2; subst h2; exact List.mem_cons_self x rest
    | succ m =>
      rw [List.getElem?_cons_succ] at h
      exact List.mem_cons_of_mem x (ih m v h)

/-- Indexing below the length always succeeds. -/
theorem getq_lt_some : ∀ {α : Type} (l : List α) (n : Nat), n < l.length →
    ∃ v, l[n]? = some v := by
  intro α l
  induction l with
  | nil => intro n h; simp at h
  | cons x rest ih =>
    intro n h
    cases n with
    | zero => exact ⟨x, List.getElem?_cons_zero⟩
    | succ m =>
      obtain ⟨v, hv⟩ := ih m (by simpa using h)
      exact ⟨v, by rw [List.getElem?_cons_succ]; exact hv⟩

/-- `find_paren` finds nothing on a line without parentheses. -/
theorem findParen_no_op : ∀ (line : List MathValue) (i : Nat),
    (∀ v ∈ line, ∀ c : Char, v ≠ .Operator c) →
    findParen line i none = .ok none := by
  intro line
  induction line with
  | nil => intro i _; rfl
  | cons v rest ih =>
    intro i h
    have hrest : ∀ w ∈ rest, ∀ c : Char, w ≠ .Operator c :=
      fun w hw => h w (List.mem_cons_of_mem v hw)
    cases v with
    | Operator c => exact absurd rfl (h _ (List.mem_cons_self _ _) c)
    | Name s => exact ih (i + 1) hrest
    | Operation c o1 o2 => exact ih (i + 1) hrest
    | UnaryOperation c o => exact ih (i + 1) hrest
    | ParenOpen o => exact ih (i + 1) hrest
    | ParenClose sz => exact ih (i + 1) hrest
    | TrailingError => exact ih (i + 1) hrest

/-- `paren_parse` is the identity continuation on a line without parentheses. -/
theorem parenParse_no_op (line : List MathValue)
    (h : ∀ v ∈ line, ∀ c : Char, v ≠ .Operator c) :
    parenParse line = .ok line := by
  unfold parenParse
  show parenParseGo (line.length + 1) line = .ok line
  simp only [parenParseGo, findParen_no_op line 0 h, Outcome.bind]

/-- The operator scan finds nothing on a line with no binary `Operator` values. -/
theorem parseOpScan_no_op (line : List MathValue) (ops : List Char) (lo : Nat)
    (h : ∀ v ∈ line, (∀ c : Char, v ≠ .Operator c) ∧
      (∀ s : Nat, v ≠ .ParenClose s)) :
    ∀ (gas idx : Nat), idx < gas → idx < line.length →
    parseOpScan line ops lo gas idx = .ok none := by
  intro gas
  induction gas with
  | zero => intro idx h1 _; omega
  | succ g ih =>
    intro idx h1 h2
    by_cases hge : lo + 1 ≤ idx
    · obtain ⟨v, hq⟩ := getq_lt_some line idx h2
      obtain ⟨hnop, hnpc⟩ := h v (mem_of_getq line idx v hq)
      have hrec : parseOpScan line ops lo g (idx - 1) = .ok none := by
        apply ih <;> omega
      cases v with
      | Operator c => exact absurd rfl (hnop c)
      | ParenClose sz => exact absurd rfl (hnpc sz)
      | Name s => simp [parseOpScan, hge, hq, hrec]
      | Operation c o1 o2 => simp [parseOpScan, hge, hq, hrec]
      | UnaryOperation c o => simp [parseOpScan, hge, hq, hrec]
      | ParenOpen o => simp [parseOpScan, hge, hq, hrec]
      | TrailingError => simp [parseOpScan, hge, hq, hrec]
    · simp [parseOpScan, hge]

/-- `parse_op` emits no task on a line with no binary operators. -/
theorem parseOp_no_op (line : List MathValue) (ops : List Char)
    (h : ∀ v ∈ line, (∀ c : Char, v ≠ .Operator c) ∧
      (∀ s : Nat, v ≠ .ParenClose s))
    (hlen : 2 ≤ line.length) :
    parseOp line ops 0 line.length = .ok .next := by
  obtain ⟨m, hm⟩ : ∃ m, line.length = m + 2 := ⟨line.length - 2, by omega⟩
  unfold parseOp
  rw [hm]
  show ((parseOpScan line ops 0 (m + 2 - 0) (m + 2 - 2)).bind _) = _
  rw [parseOpScan_no_op line ops 0 h (m + 2 - 0) (m + 2 - 2) (by omega)
        (by omega)]
  rfl

/-- The whole tier list emits no task on a line with no parentheses and no binary operators. -/
theorem solveBlockGo_no_op (line : List MathValue)
    (h : ∀ v ∈ line, (∀ c : Char, v ≠ .Operator c) ∧
      (∀ s : Nat, v ≠ .ParenClose s))
    (hlen : 2 ≤ line.length) :
    ∀ tiers : List (List Char), solveBlockGo line 0 line.length tiers = .ok [] := by
  intro tiers
  induction tiers with
  | nil => rfl
  | cons tier rest ih =>
    cases rest with
    | nil =>
      show solveBlockGo line 0 line.length [tier] = .ok []
      simp [solveBlockGo, parseOp_no_op line tier h hlen, Outcome.bind]
    | cons t2 r2 =>
      show solveBlockGo line 0 line.length (tier :: t2 :: r2) = .ok []
      simp only [solveBlockGo, parseOp_no_op line tier h hlen, Outcome.bind]
      exact ih

/-- `all_but_paren` emits only the final `Solve` on a unary chain line. -/
theorem allButParen_no_op (line : List MathValue)
    (h : ∀ v ∈ line, (∀ c : Char, v ≠ .Operator c) ∧
      (∀ s : Nat, v ≠ .ParenClose s))
    (hlen : 2 ≤ line.length) :
    allButParen line = .ok line := by
  unfold allButParen
  obtain ⟨g, hg⟩ : ∃ g, 3 * line.length + 2 = g + 1 :=
    ⟨3 * line.length + 1, by omega⟩
  rw [hg]
  simp only [solveTasks, solveBlockGo_no_op line h hlen tierList, Outcome.bind]
  cases g <;> rfl

/-- A unary chain line has no parentheses and no binary operator values. -/
theorem unaryChainLine_no_op (ops : List UnaryOp) (nm : List Char) :
    ∀ v ∈ unaryChainLine ops nm,
      (∀ c : Char, v ≠ .Operator c) ∧ (∀ s : Nat, v ≠ .ParenClose s) := by
  intro v hv
  unfold unaryChainLine at hv
  rcases List.mem_append.mp hv with hm | hm
  · obtain ⟨o, _, rfl⟩ := List.mem_map.mp hm
    exact ⟨(fun c h => nomatch h), (fun s h => nomatch h)⟩
  · simp only [List.mem_cons, List.mem_singleton] at hm
    rcases hm with rfl | rfl | h
    · exact ⟨(fun c h => nomatch h), (fun s h => nomatch h)⟩
    · exact ⟨(fun c h => nomatch h), (fun s h => nomatch h)⟩
    · cases h

/-- Length of a unary chain line. -/
theorem unaryChainLine_length (ops : List UnaryOp) (nm : List Char) :
    (unaryChainLine ops nm).length = ops.length + 2 := by
  simp [unaryChainLine]

/-- `math_parse` on a rendered unary chain yields the unary chain line. -/
theorem mathParse_chain (ops : List UnaryOp) (nm : List Char) (h1 : nm ≠ [])
    (h2 : ∀ c ∈ nm, isMathChar c = false) :
    mathParse (ops.map UnaryOp.displayChar ++ nm) = .ok (unaryChainLine ops nm) := by
  unfold mathParse mathParseTokens
  rw [mathToken_chain nm h1 h2 ops, unaryParse_chain nm ops]
  show (parenParse (unaryChainLine ops nm)).bind _ = _
  rw [parenParse_no_op (unaryChainLine ops nm)
        (fun v hv => (unaryChainLine_no_op ops nm v hv).1)]
  show allButParen (unaryChainLine ops nm) = _
  exact allButParen_no_op (unaryChainLine ops nm) (unaryChainLine_no_op ops nm)
    (by rw [unaryChainLine_length]; omega)

/-- Unfolding one operator of a unary chain line. -/
theorem unaryChainLine_cons (o : UnaryOp) (ops : List UnaryOp) (nm : List Char) :
    unaryChainLine (o :: ops) nm =
      .UnaryOperation o.displayChar 1 :: unaryChainLine ops nm := by
  simp [unaryChainLine]

/-- Reading the trailing name of a unary chain line. -/
theorem chainLine_get_name (pre : List UnaryOp) (nm : List Char) :
    (unaryChainLine pre nm)[pre.length]? = some (.Name nm) := by
  induction pre with
  | nil => rfl
  | cons p pre' ih =>
    rw [unaryChainLine_cons]
    simpa using ih

/-- Reading an operator position of a unary chain line. -/
theorem chainLine_get_unary (pre : List UnaryOp) (o : UnaryOp)
    (suf : List UnaryOp) (nm : List Char) :
    (unaryChainLine (pre ++ o :: suf) nm)[pre.length]? =
      some (.UnaryOperation o.displayChar 1) := by
  induction pre with
  | nil => rw [List.nil_append, unaryChainLine_cons]; simp
  | cons p pre' ih =>
    rw [List.cons_append, unaryChainLine_cons]
    simpa using ih

/-- Adding offset one to an index. -/
theorem addIndexOffset_succ (i : Nat) : addIndexOffset i 1 = .ok (i + 1) := by
  unfold addIndexOffset
  rw [if_neg (by omega)]
  have ht : ((i : Int) + 1).toNat = i + 1 := by omega
  rw [ht]


/-- `read_operator` on a unary value yields the unary RPN action. -/
theorem readOperator_unary (l : List MathValue) (i : Nat) (o : UnaryOp)
    (hget : l[i]? = some (.UnaryOperation o.displayChar 1)) :
    readOperator l i = .ok (.Unary o) := by
  cases o <;> simp_all [readOperator, UnaryOp.displayChar]

/-- The RPN conversion machine turns a `Solve` step on a unary chain line into the name followed by the reversed unary actions. -/
theorem rpnMachine_chain (nm : List Char) :
    ∀ (suf pre : List UnaryOp) (rest : List RPNSteps) (acc : List RPN)
      (gas : Nat),
    2 * suf.length + 2 ≤ gas →
    ∃ gas2, gas - (2 * suf.length + 1) ≤ gas2 ∧
      rpnMachine gas (unaryChainLine (pre ++ suf) nm)
          (.Solve pre.length :: rest) acc =
        rpnMachine gas2 (unaryChainLine (pre ++ suf) nm) rest
          (acc ++ .Name nm :: (suf.reverse.map RPN.Unary)) := by
  intro suf
  induction suf with
  | nil =>
    intro pre rest acc gas hgas
    obtain ⟨g, rfl⟩ : ∃ g, gas = g + 1 := ⟨gas - 1, by omega⟩
    refine ⟨g, by omega, ?_⟩
    rw [List.append_nil]
    have hget := chainLine_get_name pre nm
    simp [rpnMachine, hget]
  | cons o suf' ih =>
    intro pre rest acc gas hgas
    simp only [List.length_cons] at hgas
    obtain ⟨g, rfl⟩ : ∃ g, gas = g + 1 := ⟨gas - 1, by omega⟩
    have hget := chainLine_get_unary pre o suf' nm
    have hstep1 :
        rpnMachine (g + 1) (unaryChainLine (pre ++ o :: suf') nm)
            (.Solve pre.length :: rest) acc =
          rpnMachine g (unaryChainLine (pre ++ o :: suf') nm)
            (.Solve (pre.length + 1) :: .OperatorStep pre.length :: rest) acc := by
      simp [rpnMachine, hget, addIndexOffset_succ, Outcome.bind]
    obtain ⟨gas2, hle, heq⟩ :=
      ih (pre ++ [o]) (.OperatorStep pre.length :: rest) acc g (by omega)
    rw [List.append_assoc, List.singleton_append] at heq
    simp only [List.length_append, List.length_singleton] at heq
    obtain ⟨g2, rfl⟩ : ∃ g2, gas2 = g2 + 1 := ⟨gas2 - 1, by omega⟩
    have hread : readOperator (unaryChainLine (pre ++ o :: suf') nm) pre.length =
        .ok (.Unary o) :=
      readOperator_unary _ pre.length o hget
    have hstep3 :
        rpnMachine (g2 + 1) (unaryChainLine (pre ++ o :: suf') nm)
            (.OperatorStep pre.length :: rest)
            (acc ++ .Name nm :: (suf'.reverse.map RPN.Unary)) =
          rpnMachine g2 (unaryChainLine (pre ++ o :: suf') nm) rest
            ((acc ++ .Name nm :: (suf'.reverse.map RPN.Unary)) ++ [.Unary o]) := by
      simp [rpnMachine, hread, Outcome.bind]
    refine ⟨g2, ?_, ?_⟩
    · simp only [List.length_cons]
      omega
    · rw [hstep1, heq, hstep3]
      congr 1
      simp

/-- RPN conversion of a unary chain line. -/
theorem rpnConvert_chain (ops : List UnaryOp) (nm : List Char) :
    rpnConvert (unaryChainLine ops nm) =
      .ok (.Name nm :: (ops.reverse.map RPN.Unary)) := by
  unfold rpnConvert
  obtain ⟨gas2, _, heq⟩ := rpnMachine_chain nm ops [] [] []
    (4 * (unaryChainLine ops nm).length + 4)
    (by rw [unaryChainLine_length]; omega)
  simp only [List.length_nil, List.nil_append] at heq
  rw [heq]
  cases gas2 <;> rfl

/-- `MathParse::parse` on a rendered unary chain yields the name action followed by the reversed unary actions. -/
theorem parse_chain (ops : List UnaryOp) (nm : List Char) (h1 : nm ≠ [])
    (h2 : ∀ c ∈ nm, isMathChar c = false) :
    MathParse.parse (ops.map UnaryOp.displayChar ++ nm) =
      .ok ⟨.Name nm :: (ops.reverse.map RPN.Unary)⟩ := by
  unfold MathParse.parse
  rw [mathParse_chain ops nm h1 h2]
  show (rpnConvert (unaryChainLine ops nm)).bind _ = _
  rw [rpnConvert_chain ops nm]
  rfl

/-- Folding unary actions over the tree stack wraps the top tree. -/
theorem parseToTreeGo_unary (l : List UnaryOp) :
    ∀ (t : DisplayTree) (st : List DisplayTree),
    parseToTreeGo (l.map RPN.Unary) (t :: st) =
      .ok ((l.foldl (fun acc o => DisplayTree.Unary o acc) t) :: st) := by
  induction l with
  | nil => intro t st; rfl
  | cons o rest ih =>
    intro t st
    show parseToTreeGo (rest.map RPN.Unary) (DisplayTree.Unary o t :: st) = _
    rw [ih (DisplayTree.Unary o t) st]
    rfl

/-- The wrap fold rebuilds the chain tree. -/
theorem foldr_chain (ops : List UnaryOp) (nm : List Char) :
    ops.foldr (fun o acc => DisplayTree.Unary o acc) (DisplayTree.Name nm) =
      chainTree ops nm := by
  induction ops with
  | nil => rfl
  | cons o rest ih => simp [chainTree, ih]

/-- `parse_to_tree` rebuilds the chain tree from its RPN actions. -/
theorem toTree_chain (ops : List UnaryOp) (nm : List Char) :
    parseToTree (.Name nm :: (ops.reverse.map RPN.Unary)) =
      .ok (chainTree ops nm) := by
  have hgo : parseToTreeGo (.Name nm :: (ops.reverse.map RPN.Unary)) [] =
      .ok [chainTree ops nm] := by
    show parseToTreeGo (ops.reverse.map RPN.Unary) [DisplayTree.Name nm] = _
    rw [parseToTreeGo_unary ops.reverse (DisplayTree.Name nm) [],
        List.foldl_reverse, foldr_chain]
  unfold parseToTree
  rw [hgo]
  rfl

/-- C6: the display round-trip `parse(t.to_string()).to_tree() == t` does hold on the unary fragment: for every tree that is a chain of unary operators over a nonempty name containing no math characters, rendering and re-parsing returns exactly the same tree. -/
theorem C6_display_roundtrip_unary (ops : List UnaryOp) (nm : List Char)
    (h1 : nm ≠ []) (h2 : ∀ c ∈ nm, isMathChar c = false) :
    (treeToString (chainTree ops nm)).bind
        (fun s => (MathParse.parse s).bind MathParse.to_tree) =
      .ok (chainTree ops nm) := by
  rw [treeToString_chain ops nm]
  show (MathParse.parse (ops.map UnaryOp.displayChar ++ nm)).bind MathParse.to_tree = _
  rw [parse_chain ops nm h1 h2]
  show MathParse.to_tree ⟨.Name nm :: (ops.reverse.map RPN.Unary)⟩ = _
  unfold MathParse.to_tree
  exact toTree_chain ops nm

/-- C6 counterexample: the claim fails for binary nodes. `parse("1^2").to_tree()` is `Binary(BitwiseXor, 1, 2)`, but its rendering `(1 \u2295 2)` re-parses to a single `Name` (the display character of xor is not a math character, so the whole parenthesized body tokenizes as one name), not to the original tree. -/
theorem C6_display_roundtrip_counterexample :
    (MathParse.parse ['1', '^', '2']).bind MathParse.to_tree =
      .ok (DisplayTree.Binary .BitwiseXor (.Name ['1']) (.Name ['2'])) ∧
    (treeToString (DisplayTree.Binary .BitwiseXor (.Name ['1']) (.Name ['2']))).bind
        (fun s => (MathParse.parse s).bind MathParse.to_tree) ≠
      .ok (DisplayTree.Binary .BitwiseXor (.Name ['1']) (.Name ['2'])) := by
  constructor
  · with_unfolding_all rfl
  · with_unfolding_all decide

/-- C6 witness: the round trip at the concrete tree `-3`. -/
theorem C6_display_roundtrip_unary_witness :
    (['3'] : List Char) ≠ [] ∧ (∀ c ∈ (['3'] : List Char), isMathChar c = false) ∧
    (treeToString (chainTree [UnaryOp.Minus] ['3'])).bind
        (fun s => (MathParse.parse s).bind MathParse.to_tree) =
      .ok (chainTree [UnaryOp.Minus] ['3']) :=
  ⟨by decide, by decide,
    C6_display_roundtrip_unary [UnaryOp.Minus] ['3'] (by decide) (by decide)⟩
